import Mathlib

/-!
# dynsfx: the custom audio-bank loader (CAECustomBankLoader.cpp)

A shallow embedding of the bank catalogue arithmetic, the request/slot state
machine driven by `Service`, the worker iteration of `BankLoadingThread`, and the
teardown in `Finalize`, followed by the properties proved about them.

Conventions of the embedding:
* `unsigned int` values are natural numbers below `2^32`; the operations that can
  wrap reduce modulo `U32` explicitly.
* An array of `BankHeader`/`CAEBankSlot` sound entries is the function giving the
  `m_dwOffset` of entry `k`; the array has 400 entries, so only `k < 400` is inside it.
* Pointers to sound buffers are addresses (`0` is `nullptr`); the sound-buffer heap is
  explicit state with accounting fields that the program never reads.
* `sizeof(BankHeader)` comes from a header that is not part of the sources, so it is a
  parameter `hdrSize` everywhere.
-/

namespace DynSfx

/-! ## Machine arithmetic -/

/-- The modulus of `unsigned int` arithmetic, two to the power thirty-two. -/
def U32 : Nat := 4294967296

/-- Addition of two `unsigned int` values. -/
def add32 (a b : Nat) : Nat := (a + b) % U32

/-- Subtraction `a - b` of two `unsigned int` values (both below `U32`). -/
def sub32 (a b : Nat) : Nat := (a + U32 - b) % U32

/-- Conversion of an `unsigned short` to `short` (two's complement). -/
def toShort (n : Nat) : Int := if n < 32768 then (n : Int) else (n : Int) - 65536

/-! ## Request status values -/

/-- The status of an idle request record. -/
abbrev REQUEST_STATUS_NULL : Nat := 0

/-- The status written by the host when it submits a request. -/
abbrev REQUEST_STATUS_BEGIN : Nat := 1

/-- The first custom status value. -/
abbrev REQUEST_STATUS_CUSTOM : Nat := 100

/-- The status of a request handed to the loading thread. -/
abbrev REQUEST_STATUS_IN_PROGRESS : Nat := 101

/-- The status of a request whose buffer the loading thread has produced. -/
abbrev REQUEST_STATUS_DONE : Nat := 102

/-! ## Bank catalogue -/

/-- The on-disk bank header: the sound count (an `unsigned short`) and the relative
offset `m_aSounds[k].m_dwOffset` of each of the 400 sound entries. -/
structure BankHeader where
  m_nSounds : Nat
  m_aSounds : Nat → Nat

/-- One entry of the bank lookup table: pak file index, offset of the bank header in
that file, and size of the bank's sound data. -/
structure CAEBankLookupItem where
  m_iPak : Nat
  m_dwOffset : Nat
  m_dwSize : Nat

/-- The cached information about a bank. The pointer `m_pLookup` is represented by the
lookup entry it points to. -/
structure CAEBankHeader where
  m_Header : BankHeader
  m_pLookup : CAEBankLookupItem

/-- The catalogue entry of a bank: the index of its file and its header. -/
structure CAEBankInfo where
  m_iFileId : Nat
  m_OriginalHeader : CAEBankHeader

/-- The number of sounds of the bank. -/
def CAEBankHeader.GetNumSounds (h : CAEBankHeader) : Nat := h.m_Header.m_nSounds

/-- The offset of the bank header in the file. -/
def CAEBankHeader.GetBankOffset (h : CAEBankHeader) : Nat := h.m_pLookup.m_dwOffset

/-- The overload `GetSoundOffset()`: the offset of the bank's sound data in the file. -/
def CAEBankHeader.GetSoundOffset (hdrSize : Nat) (h : CAEBankHeader) : Nat :=
  add32 h.GetBankOffset hdrSize

/-- The relative offset stored for sound `usSound`. -/
def CAEBankHeader.GetSoundOffsetRaw (h : CAEBankHeader) (usSound : Nat) : Nat :=
  h.m_Header.m_aSounds usSound

/-- The overload `GetSoundOffset(usSound)`: the file offset of the data of one sound. -/
def CAEBankHeader.GetSoundOffsetOf (hdrSize : Nat) (h : CAEBankHeader) (usSound : Nat) : Nat :=
  add32 (h.GetSoundOffset hdrSize) (h.GetSoundOffsetRaw usSound)

/-- The overload `GetSoundSize()`: the size of the whole sound data of the bank. -/
def CAEBankHeader.GetSoundSize (h : CAEBankHeader) : Nat := h.m_pLookup.m_dwSize

/-- The overload `GetSoundSize(usSound)`: the size of the data of one sound. The sound
count is first converted to `short`, and the comparison is done on `int`. -/
def CAEBankHeader.GetSoundSizeOf (h : CAEBankHeader) (usSound : Nat) : Nat :=
  let nSoundsOnBank : Int := toShort h.m_Header.m_nSounds
  if (usSound : Int) ≥ nSoundsOnBank - 1 then
    sub32 h.m_pLookup.m_dwSize (h.m_Header.m_aSounds usSound)
  else
    sub32 (h.m_Header.m_aSounds ((usSound + 1) % 400)) (h.m_Header.m_aSounds usSound)

/-! ## The sound-buffer heap -/

/-- A live sound buffer: its address, its size, and (accounting only) the bank slot it was
allocated for. -/
structure Buffer where
  addr : Nat
  tag : Nat
  size : Nat

/-- The sound-buffer heap. `live` lists the buffers allocated and not yet deleted; every
allocation returns the fresh address `next + 1`. The counters are accounting only:
`nAlloc k` and `nFree k` count the allocations and deletions of buffers of slot `k`,
`nBadFree` counts deletions of a non-null address that is not live. -/
structure Heap where
  live : List Buffer
  next : Nat
  nAlloc : Nat → Nat
  nFree : Nat → Nat
  nBadFree : Nat

/-- The heap with no sound buffer. -/
def Heap.empty : Heap :=
  { live := [], next := 0, nAlloc := fun _ => 0, nFree := fun _ => 0, nBadFree := 0 }

/-- The call `operator new(size)` made for bank slot `tag`: the new heap and the address. -/
def Heap.alloc (h : Heap) (tag size : Nat) : Heap × Nat :=
  ({ h with
      live := { addr := h.next + 1, tag := tag, size := size } :: h.live
      next := h.next + 1
      nAlloc := Function.update h.nAlloc tag (h.nAlloc tag + 1) },
   h.next + 1)

/-- The call `operator delete(p)`: nothing for `nullptr`, removal of the live buffer at
`p` otherwise; deleting an address that is not live is recorded in `nBadFree`. -/
def Heap.free (h : Heap) (p : Nat) : Heap :=
  if p = 0 then h
  else
    match h.live.find? (fun b => b.addr = p) with
    | some b =>
      { h with
          live := h.live.filter (fun b => b.addr ≠ p)
          nFree := Function.update h.nFree b.tag (h.nFree b.tag + 1) }
    | none => { h with nBadFree := h.nBadFree + 1 }

/-- The addresses of the live buffers that were allocated for bank slot `k`. -/
def Heap.liveFor (h : Heap) (k : Nat) : List Nat :=
  (h.live.filter (fun b => b.tag = k)).map Buffer.addr

/-! ## Requests, slots and the loader -/

/-- A sound request record. `m_pBuffer` is a buffer address; `m_pBufferData`, a pointer
to the 400 sound entries of a catalogue header, is represented by the table it points
to (`none` is `nullptr`). -/
structure CAESoundRequest where
  m_usBankSlot : Nat
  m_usBank : Nat
  m_usSound : Nat
  m_iLoadingStatus : Nat
  m_pBuffer : Nat
  m_pBufferData : Option (Nat → Nat)

/-- A bank slot. `m_dwOffsetOnBuffer` holds the address of the slot's buffer and
`m_aBankItems k` is the `m_dwOffset` of entry `k` of its 400 sound entries. -/
structure CAEBankSlot where
  m_dwOffsetOnBuffer : Nat
  m_dwSlotBufferSize : Nat
  m_usBankNum : Nat
  m_nSoundsOnBank : Nat
  m_aBankItems : Nat → Nat

/-- Modelled from the spec: the request queue of `Queue.h`, which is not part of the
sources. It is a bounded first-in first-out sequence of request indices. -/
structure Queue where
  items : List Nat
  capacity : Nat

/-- Modelled from the spec: `InitialiseQueue` of `Queue.h` makes an empty queue of the
given capacity. -/
def InitialiseQueue (capacity : Nat) : Queue := { items := [], capacity := capacity }

/-- Modelled from the spec: `AddToQueue` of `Queue.h` appends an index at the back. -/
def AddToQueue (q : Queue) (i : Nat) : Queue := { q with items := q.items ++ [i] }

/-- Modelled from the spec: `GetFirstInQueue` of `Queue.h` returns the oldest index, if
there is one. -/
def GetFirstInQueue (q : Queue) : Option Nat := q.items.head?

/-- Modelled from the spec: `RemoveFirstInQueue` of `Queue.h` drops the oldest index. -/
def RemoveFirstInQueue (q : Queue) : Queue := { q with items := q.items.tail }

/-- One `ReadFile` call issued by the loader: file, offset, length, and whether the
call succeeded. -/
structure ReadCall where
  file : Nat
  offset : Nat
  length : Nat
  ok : Bool
deriving DecidableEq

/-- The state of the loader: the fields of `CAEBankLoader` used by the custom loader, the
static queue and semaphore count, the sound-buffer heap, the trace of `ReadFile` calls
issued by `LoadRequest`, and the accounting counter `nPublished k` of the number of loads
that `Service` has published into slot `k`. -/
structure Loader where
  m_usNumBankSlots : Nat
  m_pBankSlots : Nat → CAEBankSlot
  m_aBankSlotSound : Nat → Nat
  m_aSoundRequests : Nat → CAESoundRequest
  m_nRequestsToLoad : Nat
  queue : Queue
  hSemaphore : Nat
  heap : Heap
  reads : List ReadCall
  nPublished : Nat → Nat

/-- The outcome of `ReadFile` for a read of `length` bytes at `offset` of file `file`. -/
abbrev ReadOracle : Type := Nat → Nat → Nat → Bool

/-- The outputs of `AllocateBankSlot`: the heap, the slot and the request after the call,
the two reference parameters `dwOffset` and `dwSize`, and the returned buffer. -/
structure AllocateResult where
  heap : Heap
  b : CAEBankSlot
  r : CAESoundRequest
  dwOffset : Nat
  dwSize : Nat
  pBuffer : Nat

/-- The method `CAEBankHeader::AllocateBankSlot`. -/
def CAEBankHeader.AllocateBankSlot (hdrSize : Nat) (h : CAEBankHeader) (heap : Heap)
    (b : CAEBankSlot) (r : CAESoundRequest) : AllocateResult :=
  let usSound := r.m_usSound
  let bSingleSound : Bool := usSound != 0xFFFF
  let pBuffer := r.m_pBuffer
  let dwOffset := if bSingleSound then h.GetSoundOffsetOf hdrSize usSound else h.GetSoundOffset hdrSize
  let dwSize := if bSingleSound then h.GetSoundSizeOf usSound else h.GetSoundSize
  let heap1 := if pBuffer ≠ 0 then heap.free pBuffer else heap
  let res := heap1.alloc r.m_usBankSlot dwSize
  { heap := res.1
    b := { b with m_dwSlotBufferSize := dwSize, m_nSoundsOnBank := h.GetNumSounds }
    r := { r with m_pBuffer := res.2, m_pBufferData := some h.m_Header.m_aSounds }
    dwOffset := dwOffset
    dwSize := dwSize
    pBuffer := res.2 }

/-- The method `CAECustomBankLoader::LoadRequest`. The result of `ReadFile` is recorded in
the trace and is not inspected. -/
def LoadRequest (hdrSize : Nat) (pBankInfo : Nat → CAEBankInfo) (ReadFile : ReadOracle)
    (s : Loader) (i : Nat) : Loader :=
  let r := s.m_aSoundRequests i
  let f := pBankInfo r.m_usBank
  let a := f.m_OriginalHeader.AllocateBankSlot hdrSize s.heap (s.m_pBankSlots r.m_usBankSlot) r
  let reads :=
    if a.dwSize ≠ 0 then
      s.reads ++ [{ file := f.m_iFileId, offset := a.dwOffset, length := a.dwSize,
                    ok := ReadFile f.m_iFileId a.dwOffset a.dwSize }]
    else s.reads
  let b := if a.r.m_usSound ≠ 0xFFFF then { a.b with m_nSoundsOnBank := 0xFFFF } else a.b
  { s with
      heap := a.heap
      reads := reads
      m_aSoundRequests := Function.update s.m_aSoundRequests i a.r
      m_pBankSlots := Function.update s.m_pBankSlots r.m_usBankSlot b }

/-- One iteration of the loop of `BankLoadingThread`. The result is `none` when the
thread stays blocked in `WaitForSingleObject` (semaphore count zero) or the queue has no
first element. -/
def BankLoadingThread (hdrSize : Nat) (pBankInfo : Nat → CAEBankInfo) (ReadFile : ReadOracle)
    (s : Loader) : Option Loader :=
  if s.hSemaphore = 0 then none
  else
    match GetFirstInQueue s.queue with
    | none => none
    | some i =>
      let s1 := LoadRequest hdrSize pBankInfo ReadFile { s with hSemaphore := s.hSemaphore - 1 } i
      let s2 := { s1 with queue := RemoveFirstInQueue s1.queue }
      some { s2 with
        m_aSoundRequests := Function.update s2.m_aSoundRequests i
          { s2.m_aSoundRequests i with m_iLoadingStatus := REQUEST_STATUS_DONE } }

/-- The call `ReleaseSemaphore(hSemaphore, 1, nullptr)` on a semaphore of maximum count
`50 + 1`: the count is left unchanged when it would exceed the maximum. -/
def ReleaseSemaphore (count : Nat) : Nat := if count + 1 ≤ 50 + 1 then count + 1 else count

/-- The body of the loop of `CAECustomBankLoader::Service` for request index `i`. The loop
runs the body only while `m_nRequestsToLoad` is non-zero, so the decrement of the done
case does not wrap. A null `m_pBufferData` leaves the slot's entries as they are (the
pointer is never null for a done request produced by the loading thread). -/
def ServiceBody (s : Loader) (i : Nat) : Loader :=
  let r := s.m_aSoundRequests i
  let bankslot := r.m_usBankSlot
  if r.m_iLoadingStatus = REQUEST_STATUS_BEGIN then
    let b := s.m_pBankSlots bankslot
    let r1 := { r with m_pBuffer := b.m_dwOffsetOnBuffer, m_iLoadingStatus := REQUEST_STATUS_IN_PROGRESS }
    let b1 := { b with
      m_dwOffsetOnBuffer := 0
      m_aBankItems := fun k => if k < 400 then 0 else b.m_aBankItems k
      m_usBankNum := 0xFFFF }
    { s with
        m_aSoundRequests := Function.update s.m_aSoundRequests i r1
        m_pBankSlots := Function.update s.m_pBankSlots bankslot b1
        m_aBankSlotSound := Function.update s.m_aBankSlotSound bankslot 0xFFFF
        queue := AddToQueue s.queue i
        hSemaphore := ReleaseSemaphore s.hSemaphore }
  else if r.m_iLoadingStatus = REQUEST_STATUS_DONE then
    let b := s.m_pBankSlots bankslot
    let copied : Nat → Nat :=
      match r.m_pBufferData with
      | some t => fun k => if k < 400 then t k else b.m_aBankItems k
      | none => b.m_aBankItems
    let items : Nat → Nat :=
      if r.m_usSound ≠ 0xFFFF then
        Function.update (Function.update copied r.m_usSound 0)
          ((r.m_usSound + 1) % 400) b.m_dwSlotBufferSize
      else copied
    let b1 := { b with
      m_usBankNum := r.m_usBank
      m_dwOffsetOnBuffer := r.m_pBuffer
      m_aBankItems := items }
    let r1 : CAESoundRequest :=
      { m_iLoadingStatus := REQUEST_STATUS_NULL, m_usBankSlot := 0xFFFF, m_usBank := 0xFFFF,
        m_usSound := 0xFFFF, m_pBuffer := 0, m_pBufferData := none }
    { s with
        m_aSoundRequests := Function.update s.m_aSoundRequests i r1
        m_pBankSlots := Function.update s.m_pBankSlots bankslot b1
        m_aBankSlotSound := Function.update s.m_aBankSlotSound bankslot r.m_usSound
        m_nRequestsToLoad := s.m_nRequestsToLoad - 1
        nPublished := Function.update s.nPublished bankslot (s.nPublished bankslot + 1) }
  else s

/-- The loop of `Service` with `n` request indices left to visit, the next one being
`50 - n`; it stops as soon as `m_nRequestsToLoad` is zero. -/
def ServiceLoop : Nat → Loader → Loader
  | 0, s => s
  | n + 1, s =>
    if s.m_nRequestsToLoad ≠ 0 then ServiceLoop n (ServiceBody s (50 - (n + 1))) else s

/-- The method `CAECustomBankLoader::Service`. -/
def Service (s : Loader) : Loader := ServiceLoop 50 s

/-- The body of the last loop of `Finalize` for slot `i`: delete the slot's buffer and
clear the pointer. -/
def FinalizeBody (s : Loader) (i : Nat) : Loader :=
  { s with
      heap := s.heap.free (s.m_pBankSlots i).m_dwOffsetOnBuffer
      m_pBankSlots := Function.update s.m_pBankSlots i
        { s.m_pBankSlots i with m_dwOffsetOnBuffer := 0 } }

/-- The method `CAECustomBankLoader::Finalize`, as far as the sound buffers go: the loop
over all bank slots. Closing the thread, semaphore and file handles and releasing the
queue and the catalogue touch no sound buffer and are left out. -/
def Finalize (s : Loader) : Loader :=
  (List.range s.m_usNumBankSlots).foldl FinalizeBody s

/-- Modelled from the spec: the host submits a request by writing the target slot, the
bank and the sound index into request record `i`, setting its status to submitted, and
counting it in `m_nRequestsToLoad`. The host code is not part of the sources. -/
def Submit (s : Loader) (i slot bank sound : Nat) : Loader :=
  { s with
      m_aSoundRequests := Function.update s.m_aSoundRequests i
        { s.m_aSoundRequests i with
            m_usBankSlot := slot, m_usBank := bank, m_usSound := sound,
            m_iLoadingStatus := REQUEST_STATUS_BEGIN }
      m_nRequestsToLoad := s.m_nRequestsToLoad + 1 }

/-! ## Start-up -/

/-- The outcomes of the system calls made by `PostInitialise`: whether the semaphore and
the thread could be created, the header that `ReadFile` delivers for a pak file and an
offset (`none` when the call fails), and the result of `GetFileSize` for a pak file. -/
structure InitEnv where
  CreateSemaphore : Bool
  CreateThread : Bool
  ReadHeader : Nat → Nat → Option BankHeader
  GetFileSize : Nat → Nat

/-- The method `CAECustomBankLoader::InitialiseThread`: the result, and the loader with
the semaphore count and the queue initialised on success. -/
def InitialiseThread (env : InitEnv) (s : Loader) : Bool × Loader :=
  if env.CreateSemaphore then
    if env.CreateThread then
      (true, { s with hSemaphore := 0, queue := InitialiseQueue (50 + 1) })
    else (false, s)
  else (false, s)

/-- The method `CAEBankInfo::FetchBankFile`; `none` stands for the result `false`. The
comparison `dwSize == -1` is on 32-bit `size_t`, so `-1` is `U32 - 1`. The lookup entry
written through `pLookup` is the `m_pLookup` of the result. -/
def CAEBankInfo.FetchBankFile (env : InitEnv) (hdrSize : Nat) (pLookup : CAEBankLookupItem)
    (_usBankId iFileId dwOffset dwSize : Nat) : Option CAEBankInfo :=
  match env.ReadHeader iFileId dwOffset with
  | some hdr =>
    let dwSize1 := if dwSize = U32 - 1 then sub32 (env.GetFileSize iFileId) hdrSize else dwSize
    some { m_iFileId := iFileId
           m_OriginalHeader :=
             { m_Header := hdr
               m_pLookup := { pLookup with m_dwOffset := dwOffset, m_dwSize := dwSize1 } } }
  | none => none

/-- The loop of `PostInitialise` over the lookup table from bank index `i` on: whether
every `FetchBankFile` succeeded, and the catalogue entries built before the first
failure. -/
def FetchLoop (env : InitEnv) (hdrSize : Nat) : List CAEBankLookupItem → Nat → Bool × List CAEBankInfo
  | [], _ => (true, [])
  | l :: ls, i =>
    match CAEBankInfo.FetchBankFile env hdrSize l i l.m_iPak l.m_dwOffset l.m_dwSize with
    | none => (false, [])
    | some info =>
      let rest := FetchLoop env hdrSize ls (i + 1)
      (rest.1, info :: rest.2)

/-- The outputs of `PostInitialise`: the returned value, the loader, and the catalogue
`pBankInfo`. -/
structure PostInitialiseResult where
  result : Bool
  loader : Loader
  pBankInfo : List CAEBankInfo

/-- The method `CAECustomBankLoader::PostInitialise` on the lookup table `lookup` (its
length is `m_usNumBanks`). Opening the pak files is part of `env`; the fields
`m_iSoundBuffersSize` and `m_pSoundBuffers`, which it clears, are not part of `Loader`. -/
def PostInitialise (env : InitEnv) (hdrSize : Nat) (s : Loader) (lookup : List CAEBankLookupItem) :
    PostInitialiseResult :=
  let t := InitialiseThread env s
  if t.1 then
    let s1 := { t.2 with
      m_pBankSlots := fun i =>
        if i < t.2.m_usNumBankSlots then
          { t.2.m_pBankSlots i with m_dwOffsetOnBuffer := 0, m_dwSlotBufferSize := 0 }
        else t.2.m_pBankSlots i }
    let c := FetchLoop env hdrSize lookup 0
    { result := c.1, loader := s1, pBankInfo := c.2 }
  else { result := false, loader := t.2, pBankInfo := [] }

/-! ## Reachable states -/

/-- The loader right after start-up: every request record idle, no request counted, no
slot holding a buffer, the queue and the semaphore as `InitialiseThread` leaves them, and
no sound buffer allocated yet. -/
structure Initial (s : Loader) : Prop where
  requests : ∀ i, i < 50 → (s.m_aSoundRequests i).m_iLoadingStatus = REQUEST_STATUS_NULL
  count : s.m_nRequestsToLoad = 0
  slots : ∀ k, k < s.m_usNumBankSlots → (s.m_pBankSlots k).m_dwOffsetOnBuffer = 0
  queue : s.queue = InitialiseQueue (50 + 1)
  sem : s.hSemaphore = 0
  heap : s.heap = Heap.empty
  published : ∀ k, s.nPublished k = 0

/-- The states reachable from start-up by host submissions into idle request records (at
most one live request per slot), passes of `Service`, and iterations of the loading
thread, each with an arbitrary outcome of its read. -/
inductive Reachable (hdrSize : Nat) (pBankInfo : Nat → CAEBankInfo) : Loader → Prop
  | init (s : Loader) : Initial s → Reachable hdrSize pBankInfo s
  | submit (s : Loader) (i slot bank sound : Nat) :
      Reachable hdrSize pBankInfo s →
      i < 50 →
      (s.m_aSoundRequests i).m_iLoadingStatus = REQUEST_STATUS_NULL →
      slot < s.m_usNumBankSlots →
      (∀ j, j < 50 → (s.m_aSoundRequests j).m_iLoadingStatus ≠ REQUEST_STATUS_NULL →
        (s.m_aSoundRequests j).m_usBankSlot ≠ slot) →
      Reachable hdrSize pBankInfo (Submit s i slot bank sound)
  | service (s : Loader) :
      Reachable hdrSize pBankInfo s → Reachable hdrSize pBankInfo (Service s)
  | worker (s s2 : Loader) (ReadFile : ReadOracle) :
      Reachable hdrSize pBankInfo s →
      BankLoadingThread hdrSize pBankInfo ReadFile s = some s2 →
      Reachable hdrSize pBankInfo s2

/-- Request `i` has been handed to the loading thread and is not yet published: its
status is in-progress or done. -/
def InTransit (s : Loader) (i : Nat) : Prop :=
  (s.m_aSoundRequests i).m_iLoadingStatus = REQUEST_STATUS_IN_PROGRESS ∨
  (s.m_aSoundRequests i).m_iLoadingStatus = REQUEST_STATUS_DONE

instance (s : Loader) (i : Nat) : Decidable (InTransit s i) := by
  unfold InTransit
  infer_instance

/-- The list of the non-null pointers among `p`: empty for `nullptr`. -/
def nz (p : Nat) : List Nat := if p = 0 then [] else [p]

/-- Well-formedness of the heap: live addresses are non-null, at most `next` and pairwise
distinct, nothing was deleted twice, and for every slot the allocations are the deletions
plus the buffers still live. -/
structure HeapOK (h : Heap) : Prop where
  range : ∀ b ∈ h.live, 0 < b.addr ∧ b.addr ≤ h.next
  nodup : (h.live.map Buffer.addr).Nodup
  noBad : h.nBadFree = 0
  count : ∀ k, h.nAlloc k = h.nFree k + (h.liveFor k).length

/-- The invariant of the loader state machine. -/
structure Inv (s : Loader) : Prop where
  slotRange : ∀ i, i < 50 → (s.m_aSoundRequests i).m_iLoadingStatus ≠ REQUEST_STATUS_NULL →
    (s.m_aSoundRequests i).m_usBankSlot < s.m_usNumBankSlots
  slotInj : ∀ i, i < 50 → ∀ j, j < 50 →
    (s.m_aSoundRequests i).m_iLoadingStatus ≠ REQUEST_STATUS_NULL →
    (s.m_aSoundRequests j).m_iLoadingStatus ≠ REQUEST_STATUS_NULL →
    (s.m_aSoundRequests i).m_usBankSlot = (s.m_aSoundRequests j).m_usBankSlot → i = j
  qMem : ∀ i, i ∈ s.queue.items →
    i < 50 ∧ (s.m_aSoundRequests i).m_iLoadingStatus = REQUEST_STATUS_IN_PROGRESS
  qNodup : s.queue.items.Nodup
  sem : s.hSemaphore = s.queue.items.length
  notReady : ∀ i, i < 50 → InTransit s i →
    (s.m_pBankSlots (s.m_aSoundRequests i).m_usBankSlot).m_dwOffsetOnBuffer = 0 ∧
    (s.m_pBankSlots (s.m_aSoundRequests i).m_usBankSlot).m_usBankNum = 0xFFFF ∧
    s.m_aBankSlotSound (s.m_aSoundRequests i).m_usBankSlot = 0xFFFF ∧
    ∀ k, k < 400 → (s.m_pBankSlots (s.m_aSoundRequests i).m_usBankSlot).m_aBankItems k = 0
  heapOK : HeapOK s.heap
  ownSlot : ∀ k, k < s.m_usNumBankSlots →
    (∀ i, i < 50 → InTransit s i → (s.m_aSoundRequests i).m_usBankSlot ≠ k) →
    s.heap.liveFor k = nz (s.m_pBankSlots k).m_dwOffsetOnBuffer
  ownReq : ∀ i, i < 50 → InTransit s i →
    s.heap.liveFor (s.m_aSoundRequests i).m_usBankSlot = nz (s.m_aSoundRequests i).m_pBuffer
  cntSlot : ∀ k, k < s.m_usNumBankSlots →
    (∀ i, i < 50 → (s.m_aSoundRequests i).m_iLoadingStatus = REQUEST_STATUS_DONE →
      (s.m_aSoundRequests i).m_usBankSlot ≠ k) →
    s.heap.nAlloc k = s.nPublished k
  cntReq : ∀ i, i < 50 → (s.m_aSoundRequests i).m_iLoadingStatus = REQUEST_STATUS_DONE →
    s.heap.nAlloc (s.m_aSoundRequests i).m_usBankSlot
      = s.nPublished (s.m_aSoundRequests i).m_usBankSlot + 1 ∧
    (s.m_aSoundRequests i).m_pBuffer ≠ 0
  liveOne : ∀ k, k < s.m_usNumBankSlots → 0 < s.heap.nAlloc k → s.heap.liveFor k ≠ []

/-- The heap after the `operator delete` of `AllocateBankSlot` for request `r`. -/
def heapAfterDelete (heap : Heap) (r : CAESoundRequest) : Heap :=
  if r.m_pBuffer ≠ 0 then heap.free r.m_pBuffer else heap

/-- The invariant of the loop of `Finalize`, for a loader with `n` slots and a slot `k`:
the heap is well formed, every slot below `n` holding a non-null pointer holds the one
live buffer allocated for it, and slot `k` holds whatever is live for it. -/
structure FinalizeInv (n k : Nat) (t : Loader) : Prop where
  heapOK : HeapOK t.heap
  held : ∀ j, j < n → (t.m_pBankSlots j).m_dwOffsetOnBuffer ≠ 0 →
    t.heap.liveFor j = [(t.m_pBankSlots j).m_dwOffsetOnBuffer]
  own : t.heap.liveFor k = nz (t.m_pBankSlots k).m_dwOffsetOnBuffer

/-- The number of the 50 request records that are not idle. -/
def liveCount (s : Loader) : Nat :=
  (List.range 50).countP
    (fun i => decide ((s.m_aSoundRequests i).m_iLoadingStatus ≠ REQUEST_STATUS_NULL))

/-- The indices of the request records in the submitted status, in increasing order. -/
def submitted (s : Loader) : List Nat :=
  (List.range 50).filter
    (fun i => decide ((s.m_aSoundRequests i).m_iLoadingStatus = REQUEST_STATUS_BEGIN))

/-- The states reachable from start-up by host submissions into idle request records, with
no condition on the target slot, passes of `Service`, and iterations of the loading
thread, each with an arbitrary outcome of its read. -/
inductive HostReachable (hdrSize : Nat) (pBankInfo : Nat → CAEBankInfo) : Loader → Prop
  | init (s : Loader) : Initial s → HostReachable hdrSize pBankInfo s
  | submit (s : Loader) (i slot bank sound : Nat) :
      HostReachable hdrSize pBankInfo s →
      i < 50 →
      (s.m_aSoundRequests i).m_iLoadingStatus = REQUEST_STATUS_NULL →
      HostReachable hdrSize pBankInfo (Submit s i slot bank sound)
  | service (s : Loader) :
      HostReachable hdrSize pBankInfo s → HostReachable hdrSize pBankInfo (Service s)
  | worker (s s2 : Loader) (ReadFile : ReadOracle) :
      HostReachable hdrSize pBankInfo s →
      BankLoadingThread hdrSize pBankInfo ReadFile s = some s2 →
      HostReachable hdrSize pBankInfo s2

/-- The invariant of the request queue: it holds exactly the in-progress request indices,
each once; the semaphore count is its length; its capacity is the one it was initialised
with; and `m_nRequestsToLoad` counts the requests that are not idle. -/
structure QInv (s : Loader) : Prop where
  qMem : ∀ i, i ∈ s.queue.items →
    i < 50 ∧ (s.m_aSoundRequests i).m_iLoadingStatus = REQUEST_STATUS_IN_PROGRESS
  qNodup : s.queue.items.Nodup
  qAll : ∀ i, i < 50 →
    (s.m_aSoundRequests i).m_iLoadingStatus = REQUEST_STATUS_IN_PROGRESS → i ∈ s.queue.items
  sem : s.hSemaphore = s.queue.items.length
  cap : s.queue.capacity = 50 + 1
  count : s.m_nRequestsToLoad = liveCount s

/-! ## Concrete data used to exercise the definitions -/

/-- The bank of the scenario of the specification: two sounds at relative offsets 0 and
100, sound data of 250 bytes, header at offset 1000 of pak file 3. -/
def bank2 : CAEBankHeader :=
  { m_Header := { m_nSounds := 2, m_aSounds := fun k => if k = 1 then 100 else 0 }
    m_pLookup := { m_iPak := 3, m_dwOffset := 1000, m_dwSize := 250 } }

/-- A catalogue in which every bank is `bank2`, stored in file 3. -/
def cat2 : Nat → CAEBankInfo := fun _ => { m_iFileId := 3, m_OriginalHeader := bank2 }

/-- A request record in the idle state. -/
def idleRequest : CAESoundRequest :=
  { m_usBankSlot := 0xFFFF, m_usBank := 0xFFFF, m_usSound := 0xFFFF,
    m_iLoadingStatus := REQUEST_STATUS_NULL, m_pBuffer := 0, m_pBufferData := none }

/-- A bank slot without a buffer. -/
def emptySlot : CAEBankSlot :=
  { m_dwOffsetOnBuffer := 0, m_dwSlotBufferSize := 0, m_usBankNum := 0xFFFF,
    m_nSoundsOnBank := 0, m_aBankItems := fun _ => 0 }

/-- A loader right after start-up, with four bank slots. -/
def loader0 : Loader :=
  { m_usNumBankSlots := 4
    m_pBankSlots := fun _ => emptySlot
    m_aBankSlotSound := fun _ => 0xFFFF
    m_aSoundRequests := fun _ => idleRequest
    m_nRequestsToLoad := 0
    queue := InitialiseQueue (50 + 1)
    hSemaphore := 0
    heap := Heap.empty
    reads := []
    nPublished := fun _ => 0 }

/-- A read oracle under which every `ReadFile` call succeeds. -/
def readOk : ReadOracle := fun _ _ _ => true

/-- A read oracle under which every `ReadFile` call fails. -/
def readFail : ReadOracle := fun _ _ _ => false

/-- The header size of the scenario (the value of `sizeof(BankHeader)` in the game). -/
def hdr0 : Nat := 4804

/-- An environment in which both handles are created, every header read delivers the
two-sound header, and every pak file is 10000 bytes long. -/
def envOk : InitEnv :=
  { CreateSemaphore := true, CreateThread := true
    ReadHeader := fun _ _ => some bank2.m_Header
    GetFileSize := fun _ => 10000 }

/-- An environment like `envOk` in which the header read at offset 7 fails. -/
def envBad : InitEnv :=
  { envOk with ReadHeader := fun _ off => if off = 7 then none else some bank2.m_Header }

/-- A lookup table of two banks: one with a given size, one with the whole-file sentinel. -/
def lookup2 : List CAEBankLookupItem :=
  [{ m_iPak := 0, m_dwOffset := 0, m_dwSize := 250 },
   { m_iPak := 1, m_dwOffset := 7, m_dwSize := 4294967295 }]

/-- The state after the host asks for sound `sound` of bank 0 in slot 0 through request
record 0 and `Service` hands the request to the loading thread. -/
def queued (sound : Nat) : Loader := Service (Submit loader0 0 0 0 sound)

/-- The state after the loading thread has processed the request of `queued sound` with
the read oracle `rf` (the state is unchanged if the thread could not run). -/
def loaded (rf : ReadOracle) (sound : Nat) : Loader :=
  (BankLoadingThread hdr0 cat2 rf (queued sound)).getD (queued sound)

/-- The state after `Service` has published the load of `loaded rf sound`. -/
def published (rf : ReadOracle) (sound : Nat) : Loader := Service (loaded rf sound)

/-- The state after a second load into slot 0 has been submitted through request record 0
and handed to the loading thread by `Service`: the request holds the old buffer. -/
def requeued (rf : ReadOracle) (sound : Nat) : Loader :=
  Service (Submit (published rf sound) 0 0 0 sound)

/-- The state after the loading thread has processed the request of `requeued rf sound`
and `Service` has published it: slot 0 has gone through two complete load cycles. -/
def republished (rf : ReadOracle) (sound : Nat) : Loader :=
  Service ((BankLoadingThread hdr0 cat2 rf (requeued rf sound)).getD (requeued rf sound))

/-- The state after the host has submitted two requests for the same slot 0, through
request records 0 and 1. -/
def twoOnSlot : Loader := Submit (Submit loader0 0 0 0 1) 1 0 0 1

/-! ## Sizes and offsets of the sounds of a bank -/

theorem toShort_of_le {n : Nat} (h : n ≤ 400) : toShort n = (n : Int) := by
  unfold toShort
  rw [if_pos (by omega)]

theorem sub32_eq_sub {a b : Nat} (hab : b ≤ a) (ha : a < U32) : sub32 a b = a - b := by
  unfold sub32 U32 at *
  omega

theorem sub32_modEq {a b : Nat} (hb : b ≤ a + U32) :
    ((sub32 a b : Nat) : Int) ≡ (a : Int) - (b : Int) [ZMOD (U32 : Int)] := by
  unfold sub32
  have h1 : (((a + U32 - b) % U32 : Nat) : Int) = ((a + U32 - b : Nat) : Int) % (U32 : Int) := by
    push_cast
    rfl
  rw [h1]
  have h2 : ((a + U32 - b : Nat) : Int) = (a : Int) - (b : Int) + (U32 : Int) := by
    rw [Nat.cast_sub hb]
    push_cast
    ring
  rw [h2]
  have h3 : ((a : Int) - (b : Int) + (U32 : Int)) % (U32 : Int) ≡ (a : Int) - (b : Int) + (U32 : Int)
      [ZMOD (U32 : Int)] := Int.mod_modEq _ _
  refine h3.trans ?_
  have h4 : (a : Int) - (b : Int) + (U32 : Int) ≡ (a : Int) - (b : Int) + 0 [ZMOD (U32 : Int)] :=
    Int.ModEq.add_left _ (by
      unfold Int.ModEq
      simp)
  rw [add_zero] at h4
  exact h4

theorem GetSoundSizeOf_inner (h : CAEBankHeader) (s : Nat)
    (hN : h.m_Header.m_nSounds ≤ 400) (hs : s + 1 < h.m_Header.m_nSounds) :
    h.GetSoundSizeOf s = sub32 (h.m_Header.m_aSounds (s + 1)) (h.m_Header.m_aSounds s) := by
  unfold CAEBankHeader.GetSoundSizeOf
  simp only [toShort_of_le hN]
  rw [if_neg (by omega), Nat.mod_eq_of_lt (by omega)]

theorem GetSoundSizeOf_last (h : CAEBankHeader) (s : Nat)
    (hN : h.m_Header.m_nSounds ≤ 400) (hs : s + 1 = h.m_Header.m_nSounds) :
    h.GetSoundSizeOf s = sub32 h.m_pLookup.m_dwSize (h.m_Header.m_aSounds s) := by
  unfold CAEBankHeader.GetSoundSizeOf
  simp only [toShort_of_le hN]
  rw [if_pos (by omega)]

/-- C1: for a bank with sound count `N` between 1 and 400 and a sound index `s < N`,
`GetSoundSize(s)` is `offset(s+1) - offset(s)` when `s < N-1` and
`wholeBankSize - offset(s)` when `s = N-1`, in 32-bit unsigned arithmetic. -/
theorem C1_GetSoundSize_region (h : CAEBankHeader) (s : Nat)
    (hN1 : 1 ≤ h.m_Header.m_nSounds) (hN : h.m_Header.m_nSounds ≤ 400)
    (hs : s < h.m_Header.m_nSounds) :
    (s < h.m_Header.m_nSounds - 1 →
      h.GetSoundSizeOf s = sub32 (h.GetSoundOffsetRaw (s + 1)) (h.GetSoundOffsetRaw s)) ∧
    (s = h.m_Header.m_nSounds - 1 →
      h.GetSoundSizeOf s = sub32 h.GetSoundSize (h.GetSoundOffsetRaw s)) := by
  constructor
  · intro h1
    exact GetSoundSizeOf_inner h s hN (by omega)
  · intro h1
    exact GetSoundSizeOf_last h s hN (by omega)

/-- C1 applied to the two sounds of the scenario bank. -/
theorem C1_GetSoundSize_region_witness :
    (bank2.GetSoundSizeOf 0 = sub32 (bank2.GetSoundOffsetRaw 1) (bank2.GetSoundOffsetRaw 0)) ∧
    (bank2.GetSoundSizeOf 1 = sub32 bank2.GetSoundSize (bank2.GetSoundOffsetRaw 1)) :=
  ⟨(C1_GetSoundSize_region bank2 0 (by decide) (by decide) (by decide)).1 (by decide),
   (C1_GetSoundSize_region bank2 1 (by decide) (by decide) (by decide)).2 (by decide)⟩

theorem sum_inner_modEq (off : Nat → Nat) (m : Nat) (hoff : ∀ k, k ≤ m → off k < U32) :
    ((∑ s ∈ Finset.range m, sub32 (off (s + 1)) (off s) : Nat) : Int)
      ≡ (off m : Int) - (off 0 : Int) [ZMOD (U32 : Int)] := by
  induction m with
  | zero => simp
  | succ n ih =>
    rw [Finset.sum_range_succ]
    push_cast
    have h1 := ih (fun k hk => hoff k (by omega))
    have h2 : ((sub32 (off (n + 1)) (off n) : Nat) : Int)
        ≡ (off (n + 1) : Int) - (off n : Int) [ZMOD (U32 : Int)] :=
      sub32_modEq (by
        have := hoff n (by omega)
        omega)
    have h3 := Int.ModEq.add h1 h2
    push_cast at h3
    refine h3.trans ?_
    have : (off n : Int) - (off 0 : Int) + ((off (n + 1) : Int) - (off n : Int))
        = (off (n + 1) : Int) - (off 0 : Int) := by ring
    rw [this]

theorem sum_inner_exact (off : Nat → Nat) (m : Nat) (hoff : ∀ k, k ≤ m → off k < U32)
    (hmono : ∀ k, k < m → off k ≤ off (k + 1)) :
    (∑ s ∈ Finset.range m, sub32 (off (s + 1)) (off s)) + off 0 = off m := by
  induction m with
  | zero => simp
  | succ n ih =>
    rw [Finset.sum_range_succ]
    have h1 := ih (fun k hk => hoff k (by omega)) (fun k hk => hmono k (by omega))
    have h2 : sub32 (off (n + 1)) (off n) = off (n + 1) - off n :=
      sub32_eq_sub (hmono n (by omega)) (hoff (n + 1) (by omega))
    have h3 := hmono n (by omega)
    omega

theorem sum_GetSoundSizeOf (h : CAEBankHeader) (m : Nat)
    (hN : h.m_Header.m_nSounds = m + 1) (h400 : m + 1 ≤ 400) :
    (∑ s ∈ Finset.range (m + 1), h.GetSoundSizeOf s)
      = (∑ s ∈ Finset.range m, sub32 (h.m_Header.m_aSounds (s + 1)) (h.m_Header.m_aSounds s))
        + sub32 h.m_pLookup.m_dwSize (h.m_Header.m_aSounds m) := by
  rw [Finset.sum_range_succ]
  congr 1
  · apply Finset.sum_congr rfl
    intro s hs
    rw [Finset.mem_range] at hs
    exact GetSoundSizeOf_inner h s (by omega) (by omega)
  · exact GetSoundSizeOf_last h m (by omega) (by omega)

theorem mono_le_last (off : Nat → Nat) (m : Nat) (hmono : ∀ k, k < m → off k ≤ off (k + 1))
    (j : Nat) (hj : j ≤ m) : off j ≤ off m := by
  induction m with
  | zero =>
    have : j = 0 := by omega
    rw [this]
  | succ n ih =>
    by_cases hjn : j ≤ n
    · exact le_trans (ih (fun k hk => hmono k (by omega)) hjn) (hmono n (by omega))
    · have : j = n + 1 := by omega
      rw [this]

/-- C10: for a bank with sound count `N` between 1 and 400 whose offsets and size are
`unsigned int` values, the sum of `GetSoundSize(s)` over all sounds is congruent modulo
2^32 to `wholeBankSize - offset(0)`; and when the offsets are non-decreasing,
`offset(0) = 0` and `offset(N-1) <= wholeBankSize`, the sum is `wholeBankSize` exactly and
every range `[offset(s), offset(s) + GetSoundSize(s))` ends at or before `wholeBankSize`. -/
theorem C10_regions_partition (h : CAEBankHeader)
    (hN1 : 1 ≤ h.m_Header.m_nSounds) (hN : h.m_Header.m_nSounds ≤ 400)
    (hoff : ∀ k, k < h.m_Header.m_nSounds → h.GetSoundOffsetRaw k < U32)
    (hsize : h.GetSoundSize < U32) :
    (((∑ s ∈ Finset.range h.m_Header.m_nSounds, h.GetSoundSizeOf s : Nat) : Int)
      ≡ (h.GetSoundSize : Int) - (h.GetSoundOffsetRaw 0 : Int) [ZMOD (U32 : Int)]) ∧
    ((∀ k, k + 1 < h.m_Header.m_nSounds → h.GetSoundOffsetRaw k ≤ h.GetSoundOffsetRaw (k + 1)) →
      h.GetSoundOffsetRaw 0 = 0 →
      h.GetSoundOffsetRaw (h.m_Header.m_nSounds - 1) ≤ h.GetSoundSize →
      (∑ s ∈ Finset.range h.m_Header.m_nSounds, h.GetSoundSizeOf s) = h.GetSoundSize ∧
      ∀ s, s < h.m_Header.m_nSounds →
        h.GetSoundOffsetRaw s + h.GetSoundSizeOf s ≤ h.GetSoundSize) := by
  obtain ⟨m, hm⟩ : ∃ m, h.m_Header.m_nSounds = m + 1 := ⟨h.m_Header.m_nSounds - 1, by omega⟩
  unfold CAEBankHeader.GetSoundOffsetRaw CAEBankHeader.GetSoundSize at *
  rw [hm] at hoff ⊢
  have hoff2 : ∀ k, k ≤ m → h.m_Header.m_aSounds k < U32 := fun k hk => hoff k (by omega)
  rw [sum_GetSoundSizeOf h m hm (by omega)]
  constructor
  · push_cast
    have h1 := sum_inner_modEq h.m_Header.m_aSounds m hoff2
    have h2 : ((sub32 h.m_pLookup.m_dwSize (h.m_Header.m_aSounds m) : Nat) : Int)
        ≡ (h.m_pLookup.m_dwSize : Int) - (h.m_Header.m_aSounds m : Int) [ZMOD (U32 : Int)] :=
      sub32_modEq (by
        have := hoff2 m (le_refl m)
        omega)
    have h3 := Int.ModEq.add h1 h2
    push_cast at h3
    refine h3.trans ?_
    have : (h.m_Header.m_aSounds m : Int) - (h.m_Header.m_aSounds 0 : Int)
          + ((h.m_pLookup.m_dwSize : Int) - (h.m_Header.m_aSounds m : Int))
        = (h.m_pLookup.m_dwSize : Int) - (h.m_Header.m_aSounds 0 : Int) := by ring
    rw [this]
  · intro hmono h0 hlast
    have hlast2 : h.m_Header.m_aSounds m ≤ h.m_pLookup.m_dwSize := by
      have : m + 1 - 1 = m := by omega
      rw [this] at hlast
      exact hlast
    have hmono2 : ∀ k, k < m → h.m_Header.m_aSounds k ≤ h.m_Header.m_aSounds (k + 1) :=
      fun k hk => hmono k (by omega)
    have e1 := sum_inner_exact h.m_Header.m_aSounds m hoff2 hmono2
    have e2 : sub32 h.m_pLookup.m_dwSize (h.m_Header.m_aSounds m)
        = h.m_pLookup.m_dwSize - h.m_Header.m_aSounds m := sub32_eq_sub hlast2 hsize
    constructor
    · omega
    · intro s hs
      by_cases hsm : s = m
      · rw [hsm, GetSoundSizeOf_last h m (by omega) (by omega), e2]
        omega
      · rw [GetSoundSizeOf_inner h s (by omega) (by omega)]
        have h5 : h.m_Header.m_aSounds (s + 1) ≤ h.m_Header.m_aSounds m :=
          mono_le_last h.m_Header.m_aSounds m hmono2 (s + 1) (by omega)
        have h6 : sub32 (h.m_Header.m_aSounds (s + 1)) (h.m_Header.m_aSounds s)
            = h.m_Header.m_aSounds (s + 1) - h.m_Header.m_aSounds s :=
          sub32_eq_sub (hmono2 s (by omega)) (hoff2 (s + 1) (by omega))
        have h7 := hmono2 s (by omega)
        omega

/-- C10 applied to the scenario bank: its two sound sizes add up to the bank size. -/
theorem C10_regions_partition_witness :
    (∑ s ∈ Finset.range bank2.m_Header.m_nSounds, bank2.GetSoundSizeOf s) = bank2.GetSoundSize :=
  ((C10_regions_partition bank2 (by decide) (by decide) (by decide) (by decide)).2
    (by
      intro k hk
      have hk2 : k + 1 < 2 := hk
      have hk0 : k = 0 := by omega
      subst hk0
      decide)
    (by decide) (by decide)).1

/-! ## The read issued by `LoadRequest` -/

/-- C2: the read that `LoadRequest` issues is the resolved region. For a whole-bank request
(sound index 0xFFFF) it starts at the data-region offset, header offset plus header size,
and has the bank's whole size as length; for a single-sound request it starts at the
data-region offset plus `offset(s)` and has length `GetSoundSize(s)`; offsets are 32-bit,
and a region of length zero issues no read. For a bank with two sounds at offsets 0 and
100 and size 250 the reads are `(D, 250)`, `(D + 0, 100)` and `(D + 100, 150)`, where `D`
is the data-region offset. -/
theorem C2_LoadRequest_read (hdrSize : Nat) (pBankInfo : Nat → CAEBankInfo)
    (ReadFile : ReadOracle) (s : Loader) (i : Nat) :
    let r := s.m_aSoundRequests i
    let f := pBankInfo r.m_usBank
    let h := f.m_OriginalHeader
    let D := (h.m_pLookup.m_dwOffset + hdrSize) % U32
    let issued := fun (offset length : Nat) =>
      if length = 0 then s.reads
      else s.reads ++ [{ file := f.m_iFileId, offset := offset, length := length,
                         ok := ReadFile f.m_iFileId offset length }]
    (r.m_usSound = 0xFFFF →
      (LoadRequest hdrSize pBankInfo ReadFile s i).reads = issued D h.m_pLookup.m_dwSize) ∧
    (r.m_usSound ≠ 0xFFFF →
      (LoadRequest hdrSize pBankInfo ReadFile s i).reads
        = issued ((D + h.m_Header.m_aSounds r.m_usSound) % U32) (h.GetSoundSizeOf r.m_usSound)) ∧
    (h.m_Header.m_nSounds = 2 → h.m_Header.m_aSounds 0 = 0 → h.m_Header.m_aSounds 1 = 100 →
      h.m_pLookup.m_dwSize = 250 →
      (r.m_usSound = 0xFFFF →
        (LoadRequest hdrSize pBankInfo ReadFile s i).reads = issued D 250) ∧
      (r.m_usSound = 0 →
        (LoadRequest hdrSize pBankInfo ReadFile s i).reads = issued D 100) ∧
      (r.m_usSound = 1 →
        (LoadRequest hdrSize pBankInfo ReadFile s i).reads = issued ((D + 100) % U32) 150)) := by
  intro r f h D issued
  have hD : D < U32 := Nat.mod_lt _ (by decide)
  have whole : r.m_usSound = 0xFFFF →
      (LoadRequest hdrSize pBankInfo ReadFile s i).reads = issued D h.m_pLookup.m_dwSize := by
    intro hs
    have hs2 : (s.m_aSoundRequests i).m_usSound = 65535 := hs
    simp only [LoadRequest, CAEBankHeader.AllocateBankSlot, hs2, CAEBankHeader.GetSoundOffset,
      CAEBankHeader.GetBankOffset, CAEBankHeader.GetSoundSize, add32, issued, D, h, f, r]
    by_cases hz : (pBankInfo (s.m_aSoundRequests i).m_usBank).m_OriginalHeader.m_pLookup.m_dwSize = 0
    · simp [hz]
    · simp [hz]
  have single : r.m_usSound ≠ 0xFFFF →
      (LoadRequest hdrSize pBankInfo ReadFile s i).reads
        = issued ((D + h.m_Header.m_aSounds r.m_usSound) % U32) (h.GetSoundSizeOf r.m_usSound) := by
    intro hs
    have hs2 : ¬ (s.m_aSoundRequests i).m_usSound = 65535 := hs
    simp only [LoadRequest, CAEBankHeader.AllocateBankSlot, CAEBankHeader.GetSoundOffset,
      CAEBankHeader.GetSoundOffsetOf, CAEBankHeader.GetSoundOffsetRaw,
      CAEBankHeader.GetBankOffset, add32, issued, D, h, f, r]
    by_cases hz : (pBankInfo (s.m_aSoundRequests i).m_usBank).m_OriginalHeader.GetSoundSizeOf
        (s.m_aSoundRequests i).m_usSound = 0
    · simp [hz, hs2]
    · simp [hz, hs2]
  refine ⟨whole, single, ?_⟩
  intro hn h0 h1 hsz
  refine ⟨?_, ?_, ?_⟩
  · intro hs
    rw [whole hs, hsz]
  · intro hs
    have e : h.GetSoundSizeOf 0 = 100 := by
      simp [CAEBankHeader.GetSoundSizeOf, hn, h0, h1, toShort, sub32, U32]
    rw [single (by rw [hs]; decide), hs, e, h0, Nat.add_zero, Nat.mod_eq_of_lt hD]
  · intro hs
    have e : h.GetSoundSizeOf 1 = 150 := by
      simp [CAEBankHeader.GetSoundSizeOf, hn, h1, hsz, toShort, sub32, U32]
    rw [single (by rw [hs]; decide), hs, e, h1]

/-- C2 applied to the scenario: the request for sound 1 of the two-sound bank reads 150
bytes at offset 100 of the data region, which starts at 1000 + 4804. -/
theorem C2_LoadRequest_read_witness :
    (LoadRequest hdr0 cat2 readOk (queued 1) 0).reads
      = [{ file := 3, offset := 5904, length := 150, ok := true }] :=
  (((C2_LoadRequest_read hdr0 cat2 readOk (queued 1) 0).2.2
      (by decide) (by decide) (by decide) (by decide)).2.2 (by decide)).trans (by decide)

/-! ## Building the catalogue -/

theorem FetchBankFile_isSome (env : InitEnv) (hdrSize : Nat) (l : CAEBankLookupItem) (i : Nat) :
    (CAEBankInfo.FetchBankFile env hdrSize l i l.m_iPak l.m_dwOffset l.m_dwSize).isSome
      = (env.ReadHeader l.m_iPak l.m_dwOffset).isSome := by
  unfold CAEBankInfo.FetchBankFile
  cases env.ReadHeader l.m_iPak l.m_dwOffset <;> rfl

theorem FetchBankFile_size (env : InitEnv) (hdrSize : Nat) (l : CAEBankLookupItem) (i : Nat)
    (info : CAEBankInfo)
    (hf : CAEBankInfo.FetchBankFile env hdrSize l i l.m_iPak l.m_dwOffset l.m_dwSize = some info) :
    info.m_OriginalHeader.m_pLookup.m_dwSize
      = (if l.m_dwSize = U32 - 1 then (env.GetFileSize l.m_iPak + U32 - hdrSize) % U32
         else l.m_dwSize) := by
  unfold CAEBankInfo.FetchBankFile at hf
  cases hr : env.ReadHeader l.m_iPak l.m_dwOffset with
  | none => simp [hr] at hf
  | some hd =>
    simp only [hr, Option.some.injEq] at hf
    rw [← hf]
    rfl

theorem FetchLoop_result (env : InitEnv) (hdrSize : Nat) (ls : List CAEBankLookupItem) (i0 : Nat) :
    (FetchLoop env hdrSize ls i0).1 = true ↔
      ∀ j (hj : j < ls.length),
        (CAEBankInfo.FetchBankFile env hdrSize ls[j] (i0 + j) ls[j].m_iPak ls[j].m_dwOffset
          ls[j].m_dwSize).isSome = true := by
  induction ls generalizing i0 with
  | nil => simp [FetchLoop]
  | cons l ls ih =>
    unfold FetchLoop
    cases hf : CAEBankInfo.FetchBankFile env hdrSize l i0 l.m_iPak l.m_dwOffset l.m_dwSize with
    | none =>
      simp only [Bool.false_eq_true, false_iff, not_forall]
      refine ⟨0, by simp, ?_⟩
      simp [hf]
    | some info =>
      simp only
      rw [ih (i0 + 1)]
      constructor
      · intro h j hj
        cases j with
        | zero => simp [hf]
        | succ j =>
          have := h j (by simpa using hj)
          simpa [Nat.add_assoc, Nat.add_comm 1 j] using this
      · intro h j hj
        have := h (j + 1) (by simpa using hj)
        simpa [Nat.add_assoc, Nat.add_comm 1 j] using this

theorem FetchLoop_entries (env : InitEnv) (hdrSize : Nat) (ls : List CAEBankLookupItem) (i0 : Nat)
    (hok : (FetchLoop env hdrSize ls i0).1 = true) :
    (FetchLoop env hdrSize ls i0).2.length = ls.length ∧
    ∀ j (hj : j < ls.length), ∃ info, (FetchLoop env hdrSize ls i0).2[j]? = some info ∧
      info.m_OriginalHeader.m_pLookup.m_dwSize
        = (if ls[j].m_dwSize = U32 - 1 then (env.GetFileSize ls[j].m_iPak + U32 - hdrSize) % U32
           else ls[j].m_dwSize) := by
  induction ls generalizing i0 with
  | nil => simp [FetchLoop]
  | cons l ls ih =>
    unfold FetchLoop at hok ⊢
    cases hf : CAEBankInfo.FetchBankFile env hdrSize l i0 l.m_iPak l.m_dwOffset l.m_dwSize with
    | none => simp [hf] at hok
    | some info =>
      simp only [hf] at hok ⊢
      have ih2 := ih (i0 + 1) hok
      refine ⟨by simp [ih2.1], ?_⟩
      intro j hj
      cases j with
      | zero =>
        refine ⟨info, by simp, ?_⟩
        simpa using FetchBankFile_size env hdrSize l i0 info hf
      | succ j =>
        obtain ⟨info2, h1, h2⟩ := ih2.2 j (by simpa using hj)
        exact ⟨info2, by simpa using h1, by simpa using h2⟩

/-- C9: `PostInitialise` returns `false` whenever the header read fails for some bank of
the lookup table; it returns `true` exactly when `InitialiseThread` succeeds and
`FetchBankFile` succeeds for every bank index below the number of banks; and on success
the lookup size of each bank is the given size, or file length minus header size (32-bit)
when the given size is the whole-file sentinel `-1`, which is the plain difference when
the file is at least as long as the header. -/
theorem C9_PostInitialise (env : InitEnv) (hdrSize : Nat) (s : Loader)
    (lookup : List CAEBankLookupItem) :
    ((∃ j, ∃ hj : j < lookup.length,
        env.ReadHeader lookup[j].m_iPak lookup[j].m_dwOffset = none) →
      (PostInitialise env hdrSize s lookup).result = false) ∧
    ((PostInitialise env hdrSize s lookup).result = true ↔
      ((InitialiseThread env s).1 = true ∧
       ∀ j (hj : j < lookup.length),
        (CAEBankInfo.FetchBankFile env hdrSize lookup[j] j lookup[j].m_iPak lookup[j].m_dwOffset
          lookup[j].m_dwSize).isSome = true)) ∧
    ((PostInitialise env hdrSize s lookup).result = true →
      (PostInitialise env hdrSize s lookup).pBankInfo.length = lookup.length ∧
      ∀ j (hj : j < lookup.length), ∃ info,
        (PostInitialise env hdrSize s lookup).pBankInfo[j]? = some info ∧
        info.m_OriginalHeader.m_pLookup.m_dwSize
          = (if lookup[j].m_dwSize = U32 - 1
             then (env.GetFileSize lookup[j].m_iPak + U32 - hdrSize) % U32
             else lookup[j].m_dwSize) ∧
        (lookup[j].m_dwSize = U32 - 1 → hdrSize ≤ env.GetFileSize lookup[j].m_iPak →
          env.GetFileSize lookup[j].m_iPak < U32 →
          info.m_OriginalHeader.m_pLookup.m_dwSize = env.GetFileSize lookup[j].m_iPak - hdrSize)) := by
  have key : (PostInitialise env hdrSize s lookup).result = true ↔
      ((InitialiseThread env s).1 = true ∧
       ∀ j (hj : j < lookup.length),
        (CAEBankInfo.FetchBankFile env hdrSize lookup[j] j lookup[j].m_iPak lookup[j].m_dwOffset
          lookup[j].m_dwSize).isSome = true) := by
    unfold PostInitialise
    by_cases ht : (InitialiseThread env s).1 = true
    · simp only [ht, if_true, true_and]
      have := FetchLoop_result env hdrSize lookup 0
      simpa using this
    · simp [ht]
  refine ⟨?_, key, ?_⟩
  · rintro ⟨j, hj, hnone⟩
    by_contra hres
    have hres2 : (PostInitialise env hdrSize s lookup).result = true := by
      simpa using hres
    have h1 := (key.mp hres2).2 j hj
    rw [FetchBankFile_isSome, hnone] at h1
    simp at h1
  · intro hres
    have ht : (InitialiseThread env s).1 = true := (key.mp hres).1
    have hloop : (FetchLoop env hdrSize lookup 0).1 = true := by
      unfold PostInitialise at hres
      simpa [ht] using hres
    have e := FetchLoop_entries env hdrSize lookup 0 hloop
    have hp : (PostInitialise env hdrSize s lookup).pBankInfo = (FetchLoop env hdrSize lookup 0).2 := by
      unfold PostInitialise
      simp [ht]
    rw [hp]
    refine ⟨e.1, ?_⟩
    intro j hj
    obtain ⟨info, h1, h2⟩ := e.2 j hj
    refine ⟨info, h1, h2, ?_⟩
    intro hsent hle hlt
    rw [h2, if_pos hsent]
    unfold U32 at *
    omega

/-- C9 applied to a two-bank lookup table: the failing header read of bank 1 makes
`PostInitialise` return `false`. -/
theorem C9_PostInitialise_witness :
    (PostInitialise envBad hdr0 loader0 lookup2).result = false :=
  (C9_PostInitialise envBad hdr0 loader0 lookup2).1 ⟨1, by decide, rfl⟩

/-! ## The heap operations -/

theorem Heap.free_zero (h : Heap) : h.free 0 = h := by
  simp [Heap.free]

theorem Heap.alloc_liveFor_same (h : Heap) (k sz : Nat) :
    (h.alloc k sz).1.liveFor k = (h.next + 1) :: h.liveFor k := by
  simp [Heap.alloc, Heap.liveFor]

theorem Heap.alloc_liveFor_other (h : Heap) (k sz k2 : Nat) (hk : k2 ≠ k) :
    (h.alloc k sz).1.liveFor k2 = h.liveFor k2 := by
  simp [Heap.alloc, Heap.liveFor, List.filter_cons, hk.symm]

theorem Heap.alloc_ok (h : Heap) (hok : HeapOK h) (k sz : Nat) : HeapOK (h.alloc k sz).1 := by
  refine ⟨?_, ?_, ?_, ?_⟩
  · intro b hb
    simp only [Heap.alloc, List.mem_cons] at hb
    rcases hb with hb | hb
    · subst hb
      simp [Heap.alloc]
    · have := hok.range b hb
      simp only [Heap.alloc]
      omega
  · simp only [Heap.alloc, List.map_cons, List.nodup_cons]
    refine ⟨?_, hok.nodup⟩
    intro hmem
    rw [List.mem_map] at hmem
    obtain ⟨b, hb, hbe⟩ := hmem
    have := hok.range b hb
    omega
  · simpa [Heap.alloc] using hok.noBad
  · intro k2
    by_cases hk : k2 = k
    · subst hk
      rw [Heap.alloc_liveFor_same]
      have := hok.count k2
      simp [Heap.alloc, this]
      omega
    · rw [Heap.alloc_liveFor_other h k sz k2 hk]
      have := hok.count k2
      simp [Heap.alloc, Function.update_noteq hk, this]

theorem Heap.liveFor_mem {h : Heap} {k p : Nat} (hp : p ∈ h.liveFor k) :
    ∃ b, b ∈ h.live ∧ b.tag = k ∧ b.addr = p := by
  simp only [Heap.liveFor, List.mem_map, List.mem_filter, decide_eq_true_eq] at hp
  obtain ⟨b, ⟨hb, ht⟩, ha⟩ := hp
  exact ⟨b, hb, ht, ha⟩

theorem Heap.tag_of_addr {h : Heap} (hok : HeapOK h) {k p : Nat} (hp : p ∈ h.liveFor k)
    {b : Buffer} (hb : b ∈ h.live) (ha : b.addr = p) : b.tag = k := by
  obtain ⟨b0, hb0, ht0, ha0⟩ := Heap.liveFor_mem hp
  have : b = b0 := List.inj_on_of_nodup_map hok.nodup hb hb0 (by rw [ha, ha0])
  rw [this, ht0]

theorem Heap.free_spec (h : Heap) (hok : HeapOK h) (k p : Nat) (hl : h.liveFor k = [p]) :
    HeapOK (h.free p) ∧ (h.free p).liveFor k = [] ∧
    (∀ k2, k2 ≠ k → (h.free p).liveFor k2 = h.liveFor k2) ∧
    (h.free p).nAlloc = h.nAlloc ∧ (h.free p).next = h.next := by
  have hp : p ∈ h.liveFor k := by rw [hl]; simp
  obtain ⟨b0, hb0, ht0, ha0⟩ := Heap.liveFor_mem hp
  have hp0 : p ≠ 0 := by
    have := hok.range b0 hb0
    omega
  obtain ⟨b, hfind⟩ : ∃ b, h.live.find? (fun b => b.addr = p) = some b := by
    cases hf : h.live.find? (fun b => b.addr = p) with
    | some b => exact ⟨b, rfl⟩
    | none =>
      rw [List.find?_eq_none] at hf
      exact absurd (by simpa using ha0) (hf b0 hb0)
  have hbm : b ∈ h.live := List.mem_of_find?_eq_some hfind
  have hba : b.addr = p := by simpa using List.find?_some hfind
  have hbt : b.tag = k := Heap.tag_of_addr hok hp hbm hba
  have hfree : h.free p = { h with
      live := h.live.filter (fun b => b.addr ≠ p)
      nFree := Function.update h.nFree k (h.nFree k + 1) } := by
    simp [Heap.free, hp0, hfind, hbt]
  have hk : ({ h with
      live := h.live.filter (fun b => b.addr ≠ p)
      nFree := Function.update h.nFree k (h.nFree k + 1) } : Heap).liveFor k = [] := by
    simp only [Heap.liveFor, List.map_eq_nil_iff, List.filter_eq_nil_iff, List.mem_filter,
      decide_eq_true_eq, and_imp]
    intro c hc hca hct
    apply hca
    have : c.addr ∈ h.liveFor k := by
      simp only [Heap.liveFor, List.mem_map, List.mem_filter, decide_eq_true_eq]
      exact ⟨c, ⟨hc, hct⟩, rfl⟩
    rw [hl] at this
    simpa using this
  have hother : ∀ k2, k2 ≠ k → ({ h with
      live := h.live.filter (fun b => b.addr ≠ p)
      nFree := Function.update h.nFree k (h.nFree k + 1) } : Heap).liveFor k2 = h.liveFor k2 := by
    intro k2 hk2
    simp only [Heap.liveFor, List.filter_filter]
    congr 1
    apply List.filter_congr
    intro c hc
    by_cases hct : c.tag = k2
    · have : c.addr ≠ p := by
        intro hca
        have := Heap.tag_of_addr hok hp hc hca
        omega
      simp [hct, this]
    · simp [hct]
  rw [hfree]
  refine ⟨⟨?_, ?_, ?_, ?_⟩, hk, hother, rfl, rfl⟩
  · intro c hc
    exact hok.range c (List.mem_of_mem_filter hc)
  · exact hok.nodup.sublist ((List.filter_sublist _).map _)
  · exact hok.noBad
  · intro k2
    by_cases hk2 : k2 = k
    · subst hk2
      rw [hk]
      have := hok.count k2
      rw [hl] at this
      simp [this]
    · rw [hother k2 hk2]
      simpa [Function.update_noteq hk2] using hok.count k2

/-! ## The invariant holds in every reachable state -/

theorem nodup_lt_length (l : List Nat) (n : Nat) (hnd : l.Nodup) (hlt : ∀ x, x ∈ l → x < n) :
    l.length ≤ n := by
  have h1 : l.toFinset ⊆ Finset.range n := by
    intro x hx
    rw [List.mem_toFinset] at hx
    exact Finset.mem_range.mpr (hlt x hx)
  have h2 := Finset.card_le_card h1
  rw [List.toFinset_card_of_nodup hnd, Finset.card_range] at h2
  exact h2

theorem nz_zero : nz 0 = [] := rfl

theorem nz_pos {p : Nat} (hp : p ≠ 0) : nz p = [p] := by
  simp [nz, hp]

theorem Inv_of_Initial (s : Loader) (h0 : Initial s) : Inv s := by
  have hnt : ∀ i, i < 50 → ¬ InTransit s i := by
    intro i hi ht
    have := h0.requests i hi
    rcases ht with ht | ht <;> rw [this] at ht <;> exact absurd ht (by decide)
  refine
    { slotRange := ?_, slotInj := ?_, qMem := ?_, qNodup := ?_, sem := ?_, notReady := ?_,
      heapOK := ?_, ownSlot := ?_, ownReq := ?_, cntSlot := ?_, cntReq := ?_, liveOne := ?_ }
  · intro i hi hne
    exact absurd (h0.requests i hi) hne
  · intro i hi j _ hne
    exact absurd (h0.requests i hi) hne
  · intro i hi
    rw [h0.queue] at hi
    simp [InitialiseQueue] at hi
  · rw [h0.queue]
    simp [InitialiseQueue]
  · rw [h0.queue, h0.sem]
    simp [InitialiseQueue]
  · intro i hi ht
    exact absurd ht (hnt i hi)
  · rw [h0.heap]
    exact ⟨by simp [Heap.empty], by simp [Heap.empty], rfl, by simp [Heap.empty, Heap.liveFor]⟩
  · intro k hk _
    rw [h0.heap, h0.slots k hk]
    rfl
  · intro i hi ht
    exact absurd ht (hnt i hi)
  · intro k _ _
    rw [h0.heap, h0.published k]
    rfl
  · intro i hi hd
    exact absurd (Or.inr hd) (hnt i hi)
  · intro k _ hpos
    rw [h0.heap] at hpos
    simp [Heap.empty] at hpos

theorem Inv_Submit (s : Loader) (i slot bank sound : Nat) (hinv : Inv s) (hi : i < 50)
    (hnull : (s.m_aSoundRequests i).m_iLoadingStatus = REQUEST_STATUS_NULL)
    (hslot : slot < s.m_usNumBankSlots)
    (hfresh : ∀ j, j < 50 → (s.m_aSoundRequests j).m_iLoadingStatus ≠ REQUEST_STATUS_NULL →
      (s.m_aSoundRequests j).m_usBankSlot ≠ slot) :
    Inv (Submit s i slot bank sound) := by
  have hreq : ∀ j, j ≠ i →
      (Submit s i slot bank sound).m_aSoundRequests j = s.m_aSoundRequests j := by
    intro j hj
    simp [Submit, Function.update_noteq hj]
  have hst : ((Submit s i slot bank sound).m_aSoundRequests i).m_iLoadingStatus
      = REQUEST_STATUS_BEGIN := by
    simp [Submit]
  have hsl : ((Submit s i slot bank sound).m_aSoundRequests i).m_usBankSlot = slot := by
    simp [Submit]
  have hnti : ¬ InTransit s i := by
    intro ht
    rcases ht with ht | ht <;> rw [hnull] at ht <;> exact absurd ht (by decide)
  have htr : ∀ j, InTransit (Submit s i slot bank sound) j → j ≠ i ∧ InTransit s j := by
    intro j hj
    by_cases hji : j = i
    · subst hji
      rcases hj with hj | hj <;> rw [hst] at hj <;> exact absurd hj (by decide)
    · refine ⟨hji, ?_⟩
      unfold InTransit at hj ⊢
      rw [hreq j hji] at hj
      exact hj
  have htr2 : ∀ j, InTransit s j → InTransit (Submit s i slot bank sound) j := by
    intro j hj
    have hji : j ≠ i := fun e => hnti (e ▸ hj)
    unfold InTransit at hj ⊢
    rw [hreq j hji]
    exact hj
  have hdone : ∀ j, ((Submit s i slot bank sound).m_aSoundRequests j).m_iLoadingStatus
      = REQUEST_STATUS_DONE → j ≠ i ∧ (s.m_aSoundRequests j).m_iLoadingStatus = REQUEST_STATUS_DONE := by
    intro j hj
    have := htr j (Or.inr hj)
    refine ⟨this.1, ?_⟩
    rw [hreq j this.1] at hj
    exact hj
  have hdone2 : ∀ j, (s.m_aSoundRequests j).m_iLoadingStatus = REQUEST_STATUS_DONE →
      ((Submit s i slot bank sound).m_aSoundRequests j).m_iLoadingStatus = REQUEST_STATUS_DONE := by
    intro j hj
    have hji : j ≠ i := fun e => hnti (e ▸ Or.inr hj)
    rw [hreq j hji]
    exact hj
  refine
    { slotRange := ?_, slotInj := ?_, qMem := ?_, qNodup := ?_, sem := ?_, notReady := ?_,
      heapOK := ?_, ownSlot := ?_, ownReq := ?_, cntSlot := ?_, cntReq := ?_, liveOne := ?_ }
  · intro j hj hne
    by_cases hji : j = i
    · subst hji
      rw [hsl]
      exact hslot
    · rw [hreq j hji] at hne ⊢
      exact hinv.slotRange j hj hne
  · intro j1 hj1 j2 hj2 hne1 hne2 heq
    by_cases h1 : j1 = i
    · by_cases h2 : j2 = i
      · rw [h1, h2]
      · subst h1
        rw [hsl, hreq j2 h2] at heq
        rw [hreq j2 h2] at hne2
        exact absurd heq.symm (hfresh j2 hj2 hne2)
    · by_cases h2 : j2 = i
      · subst h2
        rw [hsl, hreq j1 h1] at heq
        rw [hreq j1 h1] at hne1
        exact absurd heq (hfresh j1 hj1 hne1)
      · rw [hreq j1 h1, hreq j2 h2] at heq
        rw [hreq j1 h1] at hne1
        rw [hreq j2 h2] at hne2
        exact hinv.slotInj j1 hj1 j2 hj2 hne1 hne2 heq
  · intro j hj
    have hq := hinv.qMem j hj
    have hji : j ≠ i := by
      intro e
      rw [e, hnull] at hq
      exact absurd hq.2 (by decide)
    rw [hreq j hji]
    exact hq
  · exact hinv.qNodup
  · exact hinv.sem
  · intro j hj ht
    obtain ⟨hji, ht0⟩ := htr j ht
    rw [hreq j hji]
    exact hinv.notReady j hj ht0
  · exact hinv.heapOK
  · intro k hk hno
    refine hinv.ownSlot k hk ?_
    intro j hj ht
    have hji : j ≠ i := fun e => hnti (e ▸ ht)
    have := hno j hj (htr2 j ht)
    rw [hreq j hji] at this
    exact this
  · intro j hj ht
    obtain ⟨hji, ht0⟩ := htr j ht
    rw [hreq j hji]
    exact hinv.ownReq j hj ht0
  · intro k hk hno
    refine hinv.cntSlot k hk ?_
    intro j hj hd
    have hji : j ≠ i := fun e => hnti (e ▸ Or.inr hd)
    have := hno j hj (hdone2 j hd)
    rw [hreq j hji] at this
    exact this
  · intro j hj hd
    obtain ⟨hji, hd0⟩ := hdone j hd
    rw [hreq j hji]
    exact hinv.cntReq j hj hd0
  · exact hinv.liveOne

theorem Inv_ServiceBody_begin (s : Loader) (i : Nat) (hinv : Inv s) (hi : i < 50)
    (hst : (s.m_aSoundRequests i).m_iLoadingStatus = REQUEST_STATUS_BEGIN) :
    Inv (ServiceBody s i) := by
  have hreq : ∀ j, j ≠ i → (ServiceBody s i).m_aSoundRequests j = s.m_aSoundRequests j := by
    intro j hj
    simp [ServiceBody, hst, Function.update_noteq hj]
  have hri1 : ((ServiceBody s i).m_aSoundRequests i).m_iLoadingStatus
      = REQUEST_STATUS_IN_PROGRESS := by
    simp [ServiceBody, hst]
  have hri2 : ((ServiceBody s i).m_aSoundRequests i).m_usBankSlot
      = (s.m_aSoundRequests i).m_usBankSlot := by
    simp [ServiceBody, hst]
  have hri3 : ((ServiceBody s i).m_aSoundRequests i).m_pBuffer
      = (s.m_pBankSlots (s.m_aSoundRequests i).m_usBankSlot).m_dwOffsetOnBuffer := by
    simp [ServiceBody, hst]
  have hso : ∀ k, k ≠ (s.m_aSoundRequests i).m_usBankSlot →
      (ServiceBody s i).m_pBankSlots k = s.m_pBankSlots k ∧
      (ServiceBody s i).m_aBankSlotSound k = s.m_aBankSlotSound k := by
    intro k hk
    simp [ServiceBody, hst, Function.update_noteq hk]
  have hsk : ((ServiceBody s i).m_pBankSlots (s.m_aSoundRequests i).m_usBankSlot).m_dwOffsetOnBuffer = 0 ∧
      ((ServiceBody s i).m_pBankSlots (s.m_aSoundRequests i).m_usBankSlot).m_usBankNum = 0xFFFF ∧
      (ServiceBody s i).m_aBankSlotSound (s.m_aSoundRequests i).m_usBankSlot = 0xFFFF ∧
      ∀ x, x < 400 →
        ((ServiceBody s i).m_pBankSlots (s.m_aSoundRequests i).m_usBankSlot).m_aBankItems x = 0 := by
    refine ⟨by simp [ServiceBody, hst], by simp [ServiceBody, hst], by simp [ServiceBody, hst], ?_⟩
    intro x hx
    simp [ServiceBody, hst, hx]
  have hheap : (ServiceBody s i).heap = s.heap := by simp [ServiceBody, hst]
  have hpub : (ServiceBody s i).nPublished = s.nPublished := by simp [ServiceBody, hst]
  have hnum : (ServiceBody s i).m_usNumBankSlots = s.m_usNumBankSlots := by simp [ServiceBody, hst]
  have hq : (ServiceBody s i).queue.items = s.queue.items ++ [i] := by
    simp [ServiceBody, hst, AddToQueue]
  have hsem : (ServiceBody s i).hSemaphore = ReleaseSemaphore s.hSemaphore := by
    simp [ServiceBody, hst]
  have hlive : (s.m_aSoundRequests i).m_iLoadingStatus ≠ REQUEST_STATUS_NULL := by
    rw [hst]
    decide
  have hnti : ¬ InTransit s i := by
    intro ht
    rcases ht with ht | ht <;> rw [hst] at ht <;> exact absurd ht (by decide)
  have hliveOf : ∀ j, InTransit s j → (s.m_aSoundRequests j).m_iLoadingStatus ≠ REQUEST_STATUS_NULL := by
    intro j ht
    rcases ht with ht | ht <;> rw [ht] <;> decide
  have hsep : ∀ j, j < 50 → InTransit s j →
      (s.m_aSoundRequests j).m_usBankSlot ≠ (s.m_aSoundRequests i).m_usBankSlot := by
    intro j hj ht heq
    have := hinv.slotInj j hj i hi (hliveOf j ht) hlive heq
    exact hnti (this ▸ ht)
  have htr : ∀ j, j ≠ i → (InTransit (ServiceBody s i) j ↔ InTransit s j) := by
    intro j hj
    unfold InTransit
    rw [hreq j hj]
  have hiq : i ∉ s.queue.items := by
    intro hm
    have := (hinv.qMem i hm).2
    rw [hst] at this
    exact absurd this (by decide)
  have hqnd : (s.queue.items ++ [i]).Nodup := by
    rw [List.nodup_append]
    refine ⟨hinv.qNodup, by simp, ?_⟩
    intro a ha hb
    rw [List.mem_singleton] at hb
    exact hiq (hb ▸ ha)
  refine
    { slotRange := ?_, slotInj := ?_, qMem := ?_, qNodup := ?_, sem := ?_, notReady := ?_,
      heapOK := ?_, ownSlot := ?_, ownReq := ?_, cntSlot := ?_, cntReq := ?_, liveOne := ?_ }
  · intro j hj hne
    rw [hnum]
    by_cases hji : j = i
    · subst hji
      rw [hri2]
      exact hinv.slotRange j hj hlive
    · rw [hreq j hji] at hne ⊢
      exact hinv.slotRange j hj hne
  · intro j1 hj1 j2 hj2 hne1 hne2 heq
    have e1 : ((ServiceBody s i).m_aSoundRequests j1).m_usBankSlot
        = (s.m_aSoundRequests j1).m_usBankSlot := by
      by_cases h1 : j1 = i
      · rw [h1, hri2]
      · rw [hreq j1 h1]
    have e2 : ((ServiceBody s i).m_aSoundRequests j2).m_usBankSlot
        = (s.m_aSoundRequests j2).m_usBankSlot := by
      by_cases h2 : j2 = i
      · rw [h2, hri2]
      · rw [hreq j2 h2]
    have l1 : (s.m_aSoundRequests j1).m_iLoadingStatus ≠ REQUEST_STATUS_NULL := by
      by_cases h1 : j1 = i
      · rw [h1]
        exact hlive
      · rw [hreq j1 h1] at hne1
        exact hne1
    have l2 : (s.m_aSoundRequests j2).m_iLoadingStatus ≠ REQUEST_STATUS_NULL := by
      by_cases h2 : j2 = i
      · rw [h2]
        exact hlive
      · rw [hreq j2 h2] at hne2
        exact hne2
    rw [e1, e2] at heq
    exact hinv.slotInj j1 hj1 j2 hj2 l1 l2 heq
  · intro j hj
    rw [hq, List.mem_append, List.mem_singleton] at hj
    rcases hj with hj | hj
    · have h0 := hinv.qMem j hj
      have hji : j ≠ i := fun e => hiq (e ▸ hj)
      rw [hreq j hji]
      exact h0
    · subst hj
      exact ⟨hi, hri1⟩
  · rw [hq]
    exact hqnd
  · rw [hsem, hq, hinv.sem]
    have hlen : (s.queue.items ++ [i]).length ≤ 50 := by
      apply nodup_lt_length _ _ hqnd
      intro x hx
      rw [List.mem_append, List.mem_singleton] at hx
      rcases hx with hx | hx
      · exact (hinv.qMem x hx).1
      · rw [hx]
        exact hi
    simp only [List.length_append, List.length_singleton] at hlen ⊢
    unfold ReleaseSemaphore
    rw [if_pos (by omega)]
  · intro j hj ht
    by_cases hji : j = i
    · subst hji
      rw [hri2]
      exact hsk
    · have ht0 := (htr j hji).mp ht
      rw [hreq j hji, (hso _ (hsep j hj ht0)).1, (hso _ (hsep j hj ht0)).2]
      exact hinv.notReady j hj ht0
  · rw [hheap]
    exact hinv.heapOK
  · intro k hk hno
    rw [hnum] at hk
    have hki : k ≠ (s.m_aSoundRequests i).m_usBankSlot := by
      intro e
      exact hno i hi (Or.inl hri1) (by rw [hri2, e])
    rw [hheap, (hso k hki).1]
    refine hinv.ownSlot k hk ?_
    intro j hj ht
    have hji : j ≠ i := fun e => hnti (e ▸ ht)
    have := hno j hj ((htr j hji).mpr ht)
    rw [hreq j hji] at this
    exact this
  · intro j hj ht
    rw [hheap]
    by_cases hji : j = i
    · subst hji
      rw [hri2, hri3]
      exact hinv.ownSlot _ (hinv.slotRange j hj hlive) (fun j2 hj2 ht2 => hsep j2 hj2 ht2)
    · rw [hreq j hji]
      exact hinv.ownReq j hj ((htr j hji).mp ht)
  · intro k hk hno
    rw [hnum] at hk
    rw [hheap, hpub]
    refine hinv.cntSlot k hk ?_
    intro j hj hd
    have hji : j ≠ i := fun e => hnti (e ▸ Or.inr hd)
    have := hno j hj (by rw [hreq j hji]; exact hd)
    rw [hreq j hji] at this
    exact this
  · intro j hj hd
    have hji : j ≠ i := by
      intro e
      rw [e, hri1] at hd
      exact absurd hd (by decide)
    rw [hheap, hpub, hreq j hji]
    rw [hreq j hji] at hd
    exact hinv.cntReq j hj hd
  · intro k hk
    rw [hnum] at hk
    rw [hheap]
    exact hinv.liveOne k hk

theorem Inv_ServiceBody_done (s : Loader) (i : Nat) (hinv : Inv s) (hi : i < 50)
    (hst : (s.m_aSoundRequests i).m_iLoadingStatus = REQUEST_STATUS_DONE) :
    Inv (ServiceBody s i) := by
  have hnb : ¬ (s.m_aSoundRequests i).m_iLoadingStatus = REQUEST_STATUS_BEGIN := by
    rw [hst]
    decide
  have hreq : ∀ j, j ≠ i → (ServiceBody s i).m_aSoundRequests j = s.m_aSoundRequests j := by
    intro j hj
    simp [ServiceBody, hst, Function.update_noteq hj]
  have hri1 : ((ServiceBody s i).m_aSoundRequests i).m_iLoadingStatus = REQUEST_STATUS_NULL := by
    simp [ServiceBody, hst]
  have hso : ∀ k, k ≠ (s.m_aSoundRequests i).m_usBankSlot →
      (ServiceBody s i).m_pBankSlots k = s.m_pBankSlots k ∧
      (ServiceBody s i).m_aBankSlotSound k = s.m_aBankSlotSound k ∧
      (ServiceBody s i).nPublished k = s.nPublished k := by
    intro k hk
    simp [ServiceBody, hst, Function.update_noteq hk]
  have hsk : ((ServiceBody s i).m_pBankSlots (s.m_aSoundRequests i).m_usBankSlot).m_dwOffsetOnBuffer
        = (s.m_aSoundRequests i).m_pBuffer ∧
      (ServiceBody s i).nPublished (s.m_aSoundRequests i).m_usBankSlot
        = s.nPublished (s.m_aSoundRequests i).m_usBankSlot + 1 := by
    constructor <;> simp [ServiceBody, hst]
  have hheap : (ServiceBody s i).heap = s.heap := by simp [ServiceBody, hst]
  have hnum : (ServiceBody s i).m_usNumBankSlots = s.m_usNumBankSlots := by simp [ServiceBody, hst]
  have hq : (ServiceBody s i).queue = s.queue := by simp [ServiceBody, hst]
  have hsem : (ServiceBody s i).hSemaphore = s.hSemaphore := by simp [ServiceBody, hst]
  have hlive : (s.m_aSoundRequests i).m_iLoadingStatus ≠ REQUEST_STATUS_NULL := by
    rw [hst]
    decide
  have hti : InTransit s i := Or.inr hst
  have hnew : ∀ j, ((ServiceBody s i).m_aSoundRequests j).m_iLoadingStatus ≠ REQUEST_STATUS_NULL →
      j ≠ i := by
    intro j hne e
    rw [e] at hne
    exact hne hri1
  have hsep : ∀ j, j < 50 → j ≠ i →
      (s.m_aSoundRequests j).m_iLoadingStatus ≠ REQUEST_STATUS_NULL →
      (s.m_aSoundRequests j).m_usBankSlot ≠ (s.m_aSoundRequests i).m_usBankSlot := by
    intro j hj hji hl heq
    exact hji (hinv.slotInj j hj i hi hl hlive heq)
  have hliveOf : ∀ j, InTransit s j → (s.m_aSoundRequests j).m_iLoadingStatus ≠ REQUEST_STATUS_NULL := by
    intro j ht
    rcases ht with ht | ht <;> rw [ht] <;> decide
  have htr : ∀ j, InTransit (ServiceBody s i) j → j ≠ i ∧ InTransit s j := by
    intro j ht
    have hji : j ≠ i := by
      intro e
      rw [e] at ht
      rcases ht with ht | ht <;> rw [hri1] at ht <;> exact absurd ht (by decide)
    refine ⟨hji, ?_⟩
    unfold InTransit at ht ⊢
    rw [hreq j hji] at ht
    exact ht
  refine
    { slotRange := ?_, slotInj := ?_, qMem := ?_, qNodup := ?_, sem := ?_, notReady := ?_,
      heapOK := ?_, ownSlot := ?_, ownReq := ?_, cntSlot := ?_, cntReq := ?_, liveOne := ?_ }
  · intro j hj hne
    have hji := hnew j hne
    rw [hnum]
    rw [hreq j hji] at hne ⊢
    exact hinv.slotRange j hj hne
  · intro j1 hj1 j2 hj2 hne1 hne2 heq
    have h1 := hnew j1 hne1
    have h2 := hnew j2 hne2
    rw [hreq j1 h1] at hne1 heq
    rw [hreq j2 h2] at hne2 heq
    exact hinv.slotInj j1 hj1 j2 hj2 hne1 hne2 heq
  · intro j hj
    rw [hq] at hj
    have h0 := hinv.qMem j hj
    have hji : j ≠ i := by
      intro e
      rw [e, hst] at h0
      exact absurd h0.2 (by decide)
    rw [hreq j hji]
    exact h0
  · rw [hq]
    exact hinv.qNodup
  · rw [hsem, hq]
    exact hinv.sem
  · intro j hj ht
    obtain ⟨hji, ht0⟩ := htr j ht
    have hk := hsep j hj hji (hliveOf j ht0)
    rw [hreq j hji, (hso _ hk).1, (hso _ hk).2.1]
    exact hinv.notReady j hj ht0
  · rw [hheap]
    exact hinv.heapOK
  · intro k hk hno
    rw [hnum] at hk
    rw [hheap]
    by_cases hki : k = (s.m_aSoundRequests i).m_usBankSlot
    · rw [hki, hsk.1]
      exact hinv.ownReq i hi hti
    · rw [(hso k hki).1]
      refine hinv.ownSlot k hk ?_
      intro j hj ht
      by_cases hji : j = i
      · rw [hji]
        exact fun e => hki e.symm
      · have ht2 : InTransit (ServiceBody s i) j := by
          unfold InTransit at ht ⊢
          rw [hreq j hji]
          exact ht
        have := hno j hj ht2
        rw [hreq j hji] at this
        exact this
  · intro j hj ht
    obtain ⟨hji, ht0⟩ := htr j ht
    rw [hheap, hreq j hji]
    exact hinv.ownReq j hj ht0
  · intro k hk hno
    rw [hnum] at hk
    rw [hheap]
    by_cases hki : k = (s.m_aSoundRequests i).m_usBankSlot
    · rw [hki, hsk.2]
      exact (hinv.cntReq i hi hst).1
    · rw [(hso k hki).2.2]
      refine hinv.cntSlot k hk ?_
      intro j hj hd
      by_cases hji : j = i
      · rw [hji]
        exact fun e => hki e.symm
      · have := hno j hj (by rw [hreq j hji]; exact hd)
        rw [hreq j hji] at this
        exact this
  · intro j hj hd
    obtain ⟨hji, ht0⟩ := htr j (Or.inr hd)
    have hk := hsep j hj hji (hliveOf j ht0)
    rw [hreq j hji] at hd ⊢
    rw [hheap, (hso _ hk).2.2]
    exact hinv.cntReq j hj hd
  · intro k hk
    rw [hnum] at hk
    rw [hheap]
    exact hinv.liveOne k hk

theorem ServiceBody_other (s : Loader) (i : Nat)
    (h1 : (s.m_aSoundRequests i).m_iLoadingStatus ≠ REQUEST_STATUS_BEGIN)
    (h2 : (s.m_aSoundRequests i).m_iLoadingStatus ≠ REQUEST_STATUS_DONE) :
    ServiceBody s i = s := by
  unfold ServiceBody
  simp only
  rw [if_neg h1, if_neg h2]

theorem Inv_ServiceBody (s : Loader) (i : Nat) (hinv : Inv s) (hi : i < 50) :
    Inv (ServiceBody s i) := by
  by_cases h1 : (s.m_aSoundRequests i).m_iLoadingStatus = REQUEST_STATUS_BEGIN
  · exact Inv_ServiceBody_begin s i hinv hi h1
  · by_cases h2 : (s.m_aSoundRequests i).m_iLoadingStatus = REQUEST_STATUS_DONE
    · exact Inv_ServiceBody_done s i hinv hi h2
    · rw [ServiceBody_other s i h1 h2]
      exact hinv

theorem Inv_ServiceLoop (n : Nat) (hn : n ≤ 50) (s : Loader) (hinv : Inv s) :
    Inv (ServiceLoop n s) := by
  induction n generalizing s with
  | zero => exact hinv
  | succ m ih =>
    unfold ServiceLoop
    by_cases hz : s.m_nRequestsToLoad ≠ 0
    · rw [if_pos hz]
      exact ih (by omega) _ (Inv_ServiceBody s _ hinv (by omega))
    · rw [if_neg hz]
      exact hinv

theorem Inv_Service (s : Loader) (hinv : Inv s) : Inv (Service s) :=
  Inv_ServiceLoop 50 (le_refl 50) s hinv

theorem BankLoadingThread_some (hdrSize : Nat) (pBankInfo : Nat → CAEBankInfo)
    (ReadFile : ReadOracle) (s s2 : Loader)
    (h : BankLoadingThread hdrSize pBankInfo ReadFile s = some s2) :
    ∃ i rest sz, s.queue.items = i :: rest ∧ s.hSemaphore ≠ 0 ∧
      s2.heap = ((heapAfterDelete s.heap (s.m_aSoundRequests i)).alloc
        (s.m_aSoundRequests i).m_usBankSlot sz).1 ∧
      (s2.m_aSoundRequests i).m_iLoadingStatus = REQUEST_STATUS_DONE ∧
      (s2.m_aSoundRequests i).m_usBankSlot = (s.m_aSoundRequests i).m_usBankSlot ∧
      (s2.m_aSoundRequests i).m_pBuffer = (heapAfterDelete s.heap (s.m_aSoundRequests i)).next + 1 ∧
      (∀ j, j ≠ i → s2.m_aSoundRequests j = s.m_aSoundRequests j) ∧
      (∀ k, (s2.m_pBankSlots k).m_dwOffsetOnBuffer = (s.m_pBankSlots k).m_dwOffsetOnBuffer ∧
        (s2.m_pBankSlots k).m_usBankNum = (s.m_pBankSlots k).m_usBankNum ∧
        (s2.m_pBankSlots k).m_aBankItems = (s.m_pBankSlots k).m_aBankItems) ∧
      s2.m_aBankSlotSound = s.m_aBankSlotSound ∧
      s2.nPublished = s.nPublished ∧
      s2.m_usNumBankSlots = s.m_usNumBankSlots ∧
      s2.queue.items = rest ∧
      s2.hSemaphore = s.hSemaphore - 1 := by
  unfold BankLoadingThread at h
  by_cases hsem : s.hSemaphore = 0
  · simp [hsem] at h
  · rw [if_neg hsem] at h
    cases hq : s.queue.items with
    | nil => simp [GetFirstInQueue, hq] at h
    | cons i rest =>
      simp only [GetFirstInQueue, hq, List.head?_cons, Option.some.injEq] at h
      subst h
      refine ⟨i, rest,
        ((pBankInfo (s.m_aSoundRequests i).m_usBank).m_OriginalHeader.AllocateBankSlot hdrSize
          s.heap (s.m_pBankSlots (s.m_aSoundRequests i).m_usBankSlot) (s.m_aSoundRequests i)).dwSize,
        rfl, hsem, ?_, ?_, ?_, ?_, ?_, ?_, ?_, ?_, ?_, ?_, ?_⟩
      · simp only [LoadRequest, CAEBankHeader.AllocateBankSlot, heapAfterDelete]
      · simp
      · simp [LoadRequest, CAEBankHeader.AllocateBankSlot]
      · simp [LoadRequest, CAEBankHeader.AllocateBankSlot, heapAfterDelete, Heap.alloc]
      · intro j hj
        simp [LoadRequest, Function.update_noteq hj]
      · intro k
        by_cases hk : k = (s.m_aSoundRequests i).m_usBankSlot
        · subst hk
          simp only [LoadRequest, CAEBankHeader.AllocateBankSlot, Function.update_same]
          split_ifs <;> simp
        · simp [LoadRequest, Function.update_noteq hk]
      · simp [LoadRequest]
      · simp [LoadRequest]
      · simp [LoadRequest]
      · simp [LoadRequest, RemoveFirstInQueue, hq]
      · simp [LoadRequest]

theorem heapAfterDelete_spec (heap : Heap) (r : CAESoundRequest) (k : Nat) (hok : HeapOK heap)
    (hl : heap.liveFor k = nz r.m_pBuffer) :
    HeapOK (heapAfterDelete heap r) ∧ (heapAfterDelete heap r).liveFor k = [] ∧
    (∀ k2, k2 ≠ k → (heapAfterDelete heap r).liveFor k2 = heap.liveFor k2) ∧
    (heapAfterDelete heap r).nAlloc = heap.nAlloc := by
  unfold heapAfterDelete
  by_cases hp : r.m_pBuffer = 0
  · rw [if_neg (by simpa using hp)]
    rw [hp, nz_zero] at hl
    exact ⟨hok, hl, fun _ _ => rfl, rfl⟩
  · rw [if_pos hp]
    rw [nz_pos hp] at hl
    obtain ⟨h1, h2, h3, h4, _⟩ := Heap.free_spec heap hok k r.m_pBuffer hl
    exact ⟨h1, h2, h3, h4⟩

theorem Inv_BankLoadingThread (hdrSize : Nat) (pBankInfo : Nat → CAEBankInfo)
    (ReadFile : ReadOracle) (s s2 : Loader) (hinv : Inv s)
    (h : BankLoadingThread hdrSize pBankInfo ReadFile s = some s2) : Inv s2 := by
  obtain ⟨i, rest, sz, hq, hsem0, hheap, hri1, hri2, hri3, hreq, hslots, hsound, hpub, hnum, hq2,
    hsem2⟩ := BankLoadingThread_some hdrSize pBankInfo ReadFile s s2 h
  have himem : i ∈ s.queue.items := by
    rw [hq]
    simp
  obtain ⟨hi, hst⟩ := hinv.qMem i himem
  have hti : InTransit s i := Or.inl hst
  have hlive : (s.m_aSoundRequests i).m_iLoadingStatus ≠ REQUEST_STATUS_NULL := by
    rw [hst]
    decide
  have hliveOf : ∀ j, InTransit s j → (s.m_aSoundRequests j).m_iLoadingStatus ≠ REQUEST_STATUS_NULL := by
    intro j ht
    rcases ht with ht | ht <;> rw [ht] <;> decide
  have hsep : ∀ j, j < 50 → j ≠ i →
      (s.m_aSoundRequests j).m_iLoadingStatus ≠ REQUEST_STATUS_NULL →
      (s.m_aSoundRequests j).m_usBankSlot ≠ (s.m_aSoundRequests i).m_usBankSlot := by
    intro j hj hji hl heq
    exact hji (hinv.slotInj j hj i hi hl hlive heq)
  have hk : (s.m_aSoundRequests i).m_usBankSlot < s.m_usNumBankSlots := hinv.slotRange i hi hlive
  obtain ⟨d1, d2, d3, d4⟩ := heapAfterDelete_spec s.heap (s.m_aSoundRequests i)
    (s.m_aSoundRequests i).m_usBankSlot hinv.heapOK (hinv.ownReq i hi hti)
  have hok2 : HeapOK s2.heap := by
    rw [hheap]
    exact Heap.alloc_ok _ d1 _ _
  have hlk : s2.heap.liveFor (s.m_aSoundRequests i).m_usBankSlot = nz (s2.m_aSoundRequests i).m_pBuffer := by
    rw [hheap, Heap.alloc_liveFor_same, d2, hri3, nz_pos (by omega)]
  have hlo : ∀ k, k ≠ (s.m_aSoundRequests i).m_usBankSlot → s2.heap.liveFor k = s.heap.liveFor k := by
    intro k hk
    rw [hheap, Heap.alloc_liveFor_other _ _ _ _ hk, d3 k hk]
  have hna : ∀ k, k ≠ (s.m_aSoundRequests i).m_usBankSlot → s2.heap.nAlloc k = s.heap.nAlloc k := by
    intro k hk
    rw [hheap]
    simp [Heap.alloc, Function.update_noteq hk, d4]
  have hnk : s2.heap.nAlloc (s.m_aSoundRequests i).m_usBankSlot
      = s.heap.nAlloc (s.m_aSoundRequests i).m_usBankSlot + 1 := by
    rw [hheap]
    simp [Heap.alloc, d4]
  have hstat : ∀ j, j ≠ i → (s2.m_aSoundRequests j) = (s.m_aSoundRequests j) := hreq
  have hslotEq : ∀ j, (s2.m_aSoundRequests j).m_usBankSlot = (s.m_aSoundRequests j).m_usBankSlot := by
    intro j
    by_cases hji : j = i
    · rw [hji, hri2]
    · rw [hreq j hji]
  have htr : ∀ j, InTransit s2 j ↔ InTransit s j := by
    intro j
    by_cases hji : j = i
    · rw [hji]
      exact ⟨fun _ => hti, fun _ => Or.inr hri1⟩
    · unfold InTransit
      rw [hreq j hji]
  have hliveEq : ∀ j, (s2.m_aSoundRequests j).m_iLoadingStatus ≠ REQUEST_STATUS_NULL ↔
      (s.m_aSoundRequests j).m_iLoadingStatus ≠ REQUEST_STATUS_NULL := by
    intro j
    by_cases hji : j = i
    · rw [hji, hri1]
      exact ⟨fun _ => hlive, fun _ => by decide⟩
    · rw [hreq j hji]
  have hnd : (i :: rest).Nodup := hq ▸ hinv.qNodup
  refine
    { slotRange := ?_, slotInj := ?_, qMem := ?_, qNodup := ?_, sem := ?_, notReady := ?_,
      heapOK := hok2, ownSlot := ?_, ownReq := ?_, cntSlot := ?_, cntReq := ?_, liveOne := ?_ }
  · intro j hj hne
    rw [hnum, hslotEq]
    exact hinv.slotRange j hj ((hliveEq j).mp hne)
  · intro j1 hj1 j2 hj2 hne1 hne2 heq
    rw [hslotEq, hslotEq] at heq
    exact hinv.slotInj j1 hj1 j2 hj2 ((hliveEq j1).mp hne1) ((hliveEq j2).mp hne2) heq
  · intro j hj
    rw [hq2] at hj
    have hji : j ≠ i := by
      intro e
      rw [e] at hj
      exact (List.nodup_cons.mp hnd).1 hj
    rw [hreq j hji]
    exact hinv.qMem j (by rw [hq]; exact List.mem_cons_of_mem _ hj)
  · rw [hq2]
    exact (List.nodup_cons.mp hnd).2
  · rw [hsem2, hq2, hinv.sem, hq]
    simp
  · intro j hj ht
    have ht0 := (htr j).mp ht
    rw [hslotEq, (hslots _).1, (hslots _).2.1, (hslots _).2.2, hsound]
    exact hinv.notReady j hj ht0
  · intro k hk2 hno
    rw [hnum] at hk2
    have hki : k ≠ (s.m_aSoundRequests i).m_usBankSlot := by
      intro e
      exact hno i hi ((htr i).mpr hti) (by rw [hslotEq, e])
    rw [hlo k hki, (hslots k).1]
    refine hinv.ownSlot k hk2 ?_
    intro j hj ht
    have := hno j hj ((htr j).mpr ht)
    rw [hslotEq] at this
    exact this
  · intro j hj ht
    have ht0 := (htr j).mp ht
    by_cases hji : j = i
    · rw [hji, hslotEq]
      exact hlk
    · rw [hslotEq, hlo _ (hsep j hj hji (hliveOf j ht0)), hreq j hji]
      exact hinv.ownReq j hj ht0
  · intro k hk2 hno
    rw [hnum] at hk2
    have hki : k ≠ (s.m_aSoundRequests i).m_usBankSlot := by
      intro e
      exact hno i hi hri1 (by rw [hslotEq, e])
    rw [hna k hki, hpub]
    refine hinv.cntSlot k hk2 ?_
    intro j hj hd
    have hji : j ≠ i := by
      intro e
      rw [e, hst] at hd
      exact absurd hd (by decide)
    have := hno j hj (by rw [hreq j hji]; exact hd)
    rw [hslotEq] at this
    exact this
  · intro j hj hd
    by_cases hji : j = i
    · rw [hji, hslotEq, hnk, hpub, hri3]
      refine ⟨?_, by omega⟩
      have := hinv.cntSlot _ hk (fun j2 hj2 hd2 => by
        have hj2i : j2 ≠ i := by
          intro e
          rw [e, hst] at hd2
          exact absurd hd2 (by decide)
        exact hsep j2 hj2 hj2i (hliveOf j2 (Or.inr hd2)))
      rw [this]
    · rw [hreq j hji] at hd
      rw [hslotEq, hna _ (hsep j hj hji (hliveOf j (Or.inr hd))), hpub, hreq j hji]
      exact hinv.cntReq j hj hd
  · intro k hk2 hpos
    rw [hnum] at hk2
    by_cases hki : k = (s.m_aSoundRequests i).m_usBankSlot
    · rw [hki, hlk, hri3, nz_pos (by omega)]
      simp
    · rw [hlo k hki]
      rw [hna k hki] at hpos
      exact hinv.liveOne k hk2 hpos

theorem Inv_of_Reachable (hdrSize : Nat) (pBankInfo : Nat → CAEBankInfo) (s : Loader)
    (hr : Reachable hdrSize pBankInfo s) : Inv s := by
  induction hr with
  | init s h0 => exact Inv_of_Initial s h0
  | submit s i slot bank sound _ hi hnull hslot hfresh ih =>
    exact Inv_Submit s i slot bank sound ih hi hnull hslot hfresh
  | service s _ ih => exact Inv_Service s ih
  | worker s s2 rf _ hstep ih => exact Inv_BankLoadingThread hdrSize pBankInfo rf s s2 ih hstep

theorem Initial_of_PostInitialise (env : InitEnv) (hdrSize : Nat) (s : Loader)
    (lookup : List CAEBankLookupItem)
    (hres : (PostInitialise env hdrSize s lookup).result = true)
    (hreq : ∀ i, i < 50 → (s.m_aSoundRequests i).m_iLoadingStatus = REQUEST_STATUS_NULL)
    (hcount : s.m_nRequestsToLoad = 0) (hheap : s.heap = Heap.empty)
    (hpub : ∀ k, s.nPublished k = 0) :
    Initial (PostInitialise env hdrSize s lookup).loader := by
  unfold PostInitialise at hres ⊢
  by_cases hs : env.CreateSemaphore = true
  · by_cases ht : env.CreateThread = true
    · simp only [InitialiseThread, hs, ht, if_true]
      refine ⟨hreq, hcount, ?_, rfl, rfl, hheap, hpub⟩
      intro k hk
      simp only
      rw [if_pos hk]
    · simp [InitialiseThread, hs, ht] at hres
  · simp [InitialiseThread, hs] at hres

/-! ## Slots in transit and the request queue -/

theorem Initial_loader0 : Initial loader0 :=
  ⟨fun _ _ => rfl, rfl, fun _ _ => rfl, rfl, rfl, rfl, fun _ => rfl⟩

theorem Reachable_queued (sound : Nat) : Reachable hdr0 cat2 (queued sound) :=
  Reachable.service _
    (Reachable.submit loader0 0 0 0 sound (Reachable.init loader0 Initial_loader0)
      (by decide) rfl (by decide) (fun _ _ hne => absurd rfl hne))

theorem eq_some_getD {α : Type} (o : Option α) (d : α) (h : o.isSome = true) :
    o = some (o.getD d) := by
  cases o with
  | none => simp at h
  | some x => rfl

theorem Reachable_loaded (rf : ReadOracle) (sound : Nat)
    (h : (BankLoadingThread hdr0 cat2 rf (queued sound)).isSome = true) :
    Reachable hdr0 cat2 (loaded rf sound) :=
  Reachable.worker (queued sound) (loaded rf sound) rf (Reachable_queued sound)
    (eq_some_getD _ _ h)

theorem Reachable_published (rf : ReadOracle) (sound : Nat)
    (h : (BankLoadingThread hdr0 cat2 rf (queued sound)).isSome = true) :
    Reachable hdr0 cat2 (published rf sound) :=
  Reachable.service _ (Reachable_loaded rf sound h)

theorem transit_live {s : Loader} {j : Nat} (ht : InTransit s j) :
    (s.m_aSoundRequests j).m_iLoadingStatus ≠ REQUEST_STATUS_NULL := by
  rcases ht with ht | ht <;> rw [ht] <;> decide

theorem slot_pointer_ne (s : Loader) (hinv : Inv s) (i : Nat) (hi : i < 50) (ht : InTransit s i)
    (k : Nat) (hk : k < s.m_usNumBankSlots) (hp : (s.m_aSoundRequests i).m_pBuffer ≠ 0) :
    (s.m_pBankSlots k).m_dwOffsetOnBuffer ≠ (s.m_aSoundRequests i).m_pBuffer := by
  intro heq
  by_cases hex : ∃ j, j < 50 ∧ InTransit s j ∧ (s.m_aSoundRequests j).m_usBankSlot = k
  · obtain ⟨j, hj, htj, hjk⟩ := hex
    have := (hinv.notReady j hj htj).1
    rw [hjk, heq] at this
    exact hp this
  · have hno : ∀ j, j < 50 → InTransit s j → (s.m_aSoundRequests j).m_usBankSlot ≠ k :=
      fun j hj htj e => hex ⟨j, hj, htj, e⟩
    have h1 := hinv.ownSlot k hk hno
    have h2 := hinv.ownReq i hi ht
    rw [heq, nz_pos hp] at h1
    rw [nz_pos hp] at h2
    have m1 : (s.m_aSoundRequests i).m_pBuffer ∈ s.heap.liveFor k := by
      rw [h1]
      simp
    have m2 : (s.m_aSoundRequests i).m_pBuffer ∈
        s.heap.liveFor (s.m_aSoundRequests i).m_usBankSlot := by
      rw [h2]
      simp
    obtain ⟨b, hb, hbt, hba⟩ := Heap.liveFor_mem m1
    have := Heap.tag_of_addr hinv.heapOK m2 hb hba
    rw [hbt] at this
    exact hno i hi ht this.symm

/-- C6: in every reachable state, the slot targeted by a request whose status is in-progress
or done (not yet published) is not ready: its buffer pointer is 0, its resident bank id
and resident sound id are 0xFFFF and its 400 offset entries are all zero; and a non-null
buffer pointer held by the request is held by no slot. -/
theorem C6_transit_slot_not_ready (hdrSize : Nat) (pBankInfo : Nat → CAEBankInfo) (s : Loader)
    (hr : Reachable hdrSize pBankInfo s) (i : Nat) (hi : i < 50) (ht : InTransit s i) :
    (s.m_pBankSlots (s.m_aSoundRequests i).m_usBankSlot).m_dwOffsetOnBuffer = 0 ∧
    (s.m_pBankSlots (s.m_aSoundRequests i).m_usBankSlot).m_usBankNum = 0xFFFF ∧
    s.m_aBankSlotSound (s.m_aSoundRequests i).m_usBankSlot = 0xFFFF ∧
    (∀ k, k < 400 →
      (s.m_pBankSlots (s.m_aSoundRequests i).m_usBankSlot).m_aBankItems k = 0) ∧
    (∀ k, k < s.m_usNumBankSlots → (s.m_aSoundRequests i).m_pBuffer ≠ 0 →
      (s.m_pBankSlots k).m_dwOffsetOnBuffer ≠ (s.m_aSoundRequests i).m_pBuffer) := by
  have hinv := Inv_of_Reachable hdrSize pBankInfo s hr
  obtain ⟨h1, h2, h3, h4⟩ := hinv.notReady i hi ht
  exact ⟨h1, h2, h3, h4, fun k hk hp => slot_pointer_ne s hinv i hi ht k hk hp⟩

/-- C6 applied to the state in which the loading thread has finished request 0 and `Service`
has not yet published it: slot 0 holds no buffer pointer. -/
theorem C6_transit_slot_not_ready_witness :
    ((loaded readOk 1).m_pBankSlots ((loaded readOk 1).m_aSoundRequests 0).m_usBankSlot).m_dwOffsetOnBuffer
      = 0 :=
  (C6_transit_slot_not_ready hdr0 cat2 (loaded readOk 1) (Reachable_loaded readOk 1 (by decide)) 0
    (by decide) (Or.inr (by decide))).1

theorem ServiceBody_queue (s : Loader) (i : Nat) :
    (ServiceBody s i).queue.items
        = s.queue.items ++
          (if (s.m_aSoundRequests i).m_iLoadingStatus = REQUEST_STATUS_BEGIN then [i] else []) ∧
    (ServiceBody s i).queue.capacity = s.queue.capacity ∧
    ∀ j, j ≠ i → (ServiceBody s i).m_aSoundRequests j = s.m_aSoundRequests j := by
  by_cases h1 : (s.m_aSoundRequests i).m_iLoadingStatus = REQUEST_STATUS_BEGIN
  · refine ⟨by simp [ServiceBody, h1, AddToQueue], by simp [ServiceBody, h1, AddToQueue], ?_⟩
    intro j hj
    simp [ServiceBody, h1, Function.update_noteq hj]
  · by_cases h2 : (s.m_aSoundRequests i).m_iLoadingStatus = REQUEST_STATUS_DONE
    · refine ⟨by simp [ServiceBody, h2], by simp [ServiceBody, h2], ?_⟩
      intro j hj
      simp [ServiceBody, h2, Function.update_noteq hj]
    · rw [ServiceBody_other s i h1 h2]
      simp [h1]

theorem countP_range_congr (p q : Nat → Bool) (n : Nat) (h : ∀ j, j < n → p j = q j) :
    (List.range n).countP p = (List.range n).countP q := by
  apply List.countP_congr
  intro j hj
  rw [List.mem_range] at hj
  rw [h j hj]

theorem countP_range_point (p q : Nat → Bool) (i n : Nat) (hi : i < n)
    (h : ∀ j, j ≠ i → p j = q j) :
    (List.range n).countP q + (if p i = true then 1 else 0)
      = (List.range n).countP p + (if q i = true then 1 else 0) := by
  induction n with
  | zero => omega
  | succ m ih =>
    rw [List.range_succ, List.countP_append, List.countP_append]
    by_cases him : i = m
    · subst him
      rw [countP_range_congr p q i (fun j hj => h j (by omega))]
      cases hp : p i <;> cases hq : q i <;> simp [List.countP_cons, hp, hq]
    · have e := ih (by omega)
      have hm : p m = q m := h m (fun e2 => him e2.symm)
      simp only [List.countP_cons, List.countP_nil, hm]
      omega

theorem liveCount_point (s t : Loader) (i : Nat) (hi : i < 50)
    (h : ∀ j, j ≠ i → t.m_aSoundRequests j = s.m_aSoundRequests j) :
    liveCount t
        + (if (s.m_aSoundRequests i).m_iLoadingStatus ≠ REQUEST_STATUS_NULL then 1 else 0)
      = liveCount s
        + (if (t.m_aSoundRequests i).m_iLoadingStatus ≠ REQUEST_STATUS_NULL then 1 else 0) := by
  have := countP_range_point
    (fun j => decide ((s.m_aSoundRequests j).m_iLoadingStatus ≠ REQUEST_STATUS_NULL))
    (fun j => decide ((t.m_aSoundRequests j).m_iLoadingStatus ≠ REQUEST_STATUS_NULL))
    i 50 hi (fun j hj => by simp only [h j hj])
  simpa [liveCount] using this

theorem liveCount_zero (s : Loader) (h : liveCount s = 0) (i : Nat) (hi : i < 50) :
    (s.m_aSoundRequests i).m_iLoadingStatus = REQUEST_STATUS_NULL := by
  unfold liveCount at h
  rw [List.countP_eq_zero] at h
  have := h i (List.mem_range.mpr hi)
  simpa using this

theorem ServiceBody_effect (s : Loader) (i : Nat) :
    ((s.m_aSoundRequests i).m_iLoadingStatus = REQUEST_STATUS_BEGIN →
      ((ServiceBody s i).m_aSoundRequests i).m_iLoadingStatus = REQUEST_STATUS_IN_PROGRESS ∧
      (ServiceBody s i).hSemaphore = ReleaseSemaphore s.hSemaphore ∧
      (ServiceBody s i).m_nRequestsToLoad = s.m_nRequestsToLoad) ∧
    ((s.m_aSoundRequests i).m_iLoadingStatus = REQUEST_STATUS_DONE →
      ((ServiceBody s i).m_aSoundRequests i).m_iLoadingStatus = REQUEST_STATUS_NULL ∧
      (ServiceBody s i).hSemaphore = s.hSemaphore ∧
      (ServiceBody s i).m_nRequestsToLoad = s.m_nRequestsToLoad - 1) := by
  constructor
  · intro h
    simp [ServiceBody, h]
  · intro h
    simp [ServiceBody, h]

theorem BankLoadingThread_frame (hdrSize : Nat) (pBankInfo : Nat → CAEBankInfo)
    (ReadFile : ReadOracle) (s s2 : Loader)
    (h : BankLoadingThread hdrSize pBankInfo ReadFile s = some s2) :
    s2.queue.capacity = s.queue.capacity ∧ s2.m_nRequestsToLoad = s.m_nRequestsToLoad := by
  unfold BankLoadingThread at h
  by_cases hsem : s.hSemaphore = 0
  · simp [hsem] at h
  · rw [if_neg hsem] at h
    cases hq : GetFirstInQueue s.queue with
    | none => simp [hq] at h
    | some i =>
      simp only [hq, Option.some.injEq] at h
      subst h
      simp [LoadRequest, RemoveFirstInQueue]

theorem QInv_of_Initial (s : Loader) (h0 : Initial s) : QInv s := by
  refine { qMem := ?_, qNodup := ?_, qAll := ?_, sem := ?_, cap := ?_, count := ?_ }
  · intro i hi
    rw [h0.queue] at hi
    simp [InitialiseQueue] at hi
  · rw [h0.queue]
    simp [InitialiseQueue]
  · intro i hi hst
    rw [h0.requests i hi] at hst
    exact absurd hst (by decide)
  · rw [h0.queue, h0.sem]
    simp [InitialiseQueue]
  · rw [h0.queue]
    rfl
  · rw [h0.count]
    unfold liveCount
    symm
    rw [List.countP_eq_zero]
    intro i hi
    rw [List.mem_range] at hi
    simp [h0.requests i hi]

theorem QInv_Submit (s : Loader) (i slot bank sound : Nat) (hinv : QInv s) (hi : i < 50)
    (hnull : (s.m_aSoundRequests i).m_iLoadingStatus = REQUEST_STATUS_NULL) :
    QInv (Submit s i slot bank sound) := by
  have hreq : ∀ j, j ≠ i →
      (Submit s i slot bank sound).m_aSoundRequests j = s.m_aSoundRequests j := by
    intro j hj
    simp [Submit, Function.update_noteq hj]
  have hst : ((Submit s i slot bank sound).m_aSoundRequests i).m_iLoadingStatus
      = REQUEST_STATUS_BEGIN := by
    simp [Submit]
  refine { qMem := ?_, qNodup := hinv.qNodup, qAll := ?_, sem := hinv.sem, cap := hinv.cap,
           count := ?_ }
  · intro j hj
    have hq := hinv.qMem j hj
    have hji : j ≠ i := by
      intro e
      rw [e, hnull] at hq
      exact absurd hq.2 (by decide)
    rw [hreq j hji]
    exact hq
  · intro j hj hip
    have hji : j ≠ i := by
      intro e
      rw [e, hst] at hip
      exact absurd hip (by decide)
    rw [hreq j hji] at hip
    exact hinv.qAll j hj hip
  · have e := liveCount_point s (Submit s i slot bank sound) i hi hreq
    rw [hst, hnull] at e
    simp only [ne_eq, not_true_eq_false, if_false, Nat.add_zero] at e
    have hc : (Submit s i slot bank sound).m_nRequestsToLoad = s.m_nRequestsToLoad + 1 := rfl
    rw [hc, hinv.count, e]
    simp

theorem QInv_ServiceBody (s : Loader) (i : Nat) (hinv : QInv s) (hi : i < 50) :
    QInv (ServiceBody s i) := by
  obtain ⟨bq, bcap, breq⟩ := ServiceBody_queue s i
  have hcnt := liveCount_point s (ServiceBody s i) i hi breq
  by_cases h1 : (s.m_aSoundRequests i).m_iLoadingStatus = REQUEST_STATUS_BEGIN
  · obtain ⟨e1, e2, e3⟩ := (ServiceBody_effect s i).1 h1
    rw [if_pos h1] at bq
    have hiq : i ∉ s.queue.items := by
      intro hm
      have := (hinv.qMem i hm).2
      rw [h1] at this
      exact absurd this (by decide)
    have hnd : (s.queue.items ++ [i]).Nodup := by
      rw [List.nodup_append]
      refine ⟨hinv.qNodup, by simp, ?_⟩
      intro a ha hb
      rw [List.mem_singleton] at hb
      exact hiq (hb ▸ ha)
    refine { qMem := ?_, qNodup := ?_, qAll := ?_, sem := ?_, cap := ?_, count := ?_ }
    · intro j hj
      rw [bq, List.mem_append, List.mem_singleton] at hj
      rcases hj with hj | hj
      · have hji : j ≠ i := fun e => hiq (e ▸ hj)
        rw [breq j hji]
        exact hinv.qMem j hj
      · rw [hj]
        exact ⟨hi, e1⟩
    · rw [bq]
      exact hnd
    · intro j hj hip
      rw [bq, List.mem_append, List.mem_singleton]
      by_cases hji : j = i
      · exact Or.inr hji
      · rw [breq j hji] at hip
        exact Or.inl (hinv.qAll j hj hip)
    · rw [e2, bq, hinv.sem]
      have hlen : (s.queue.items ++ [i]).length ≤ 50 := by
        apply nodup_lt_length _ _ hnd
        intro x hx
        rw [List.mem_append, List.mem_singleton] at hx
        rcases hx with hx | hx
        · exact (hinv.qMem x hx).1
        · rw [hx]
          exact hi
      simp only [List.length_append, List.length_singleton] at hlen ⊢
      unfold ReleaseSemaphore
      rw [if_pos (by omega)]
    · rw [bcap]
      exact hinv.cap
    · rw [h1, e1] at hcnt
      simp only [ne_eq] at hcnt
      rw [if_pos (by decide), if_pos (by decide)] at hcnt
      rw [e3, hinv.count]
      omega
  · by_cases h2 : (s.m_aSoundRequests i).m_iLoadingStatus = REQUEST_STATUS_DONE
    · obtain ⟨e1, e2, e3⟩ := (ServiceBody_effect s i).2 h2
      rw [if_neg h1, List.append_nil] at bq
      have hiq : i ∉ s.queue.items := by
        intro hm
        have := (hinv.qMem i hm).2
        rw [h2] at this
        exact absurd this (by decide)
      refine { qMem := ?_, qNodup := ?_, qAll := ?_, sem := ?_, cap := ?_, count := ?_ }
      · intro j hj
        rw [bq] at hj
        have hji : j ≠ i := fun e => hiq (e ▸ hj)
        rw [breq j hji]
        exact hinv.qMem j hj
      · rw [bq]
        exact hinv.qNodup
      · intro j hj hip
        rw [bq]
        have hji : j ≠ i := by
          intro e
          rw [e, e1] at hip
          exact absurd hip (by decide)
        rw [breq j hji] at hip
        exact hinv.qAll j hj hip
      · rw [e2, bq]
        exact hinv.sem
      · rw [bcap]
        exact hinv.cap
      · rw [h2, e1] at hcnt
        simp only [ne_eq] at hcnt
        rw [if_pos (by decide), if_neg (by decide)] at hcnt
        rw [e3, hinv.count]
        omega
    · rw [ServiceBody_other s i h1 h2]
      exact hinv

theorem QInv_ServiceLoop (n : Nat) (hn : n ≤ 50) (s : Loader) (hinv : QInv s) :
    QInv (ServiceLoop n s) := by
  induction n generalizing s with
  | zero => exact hinv
  | succ m ih =>
    unfold ServiceLoop
    by_cases hz : s.m_nRequestsToLoad ≠ 0
    · rw [if_pos hz]
      exact ih (by omega) _ (QInv_ServiceBody s _ hinv (by omega))
    · rw [if_neg hz]
      exact hinv

theorem QInv_BankLoadingThread (hdrSize : Nat) (pBankInfo : Nat → CAEBankInfo)
    (ReadFile : ReadOracle) (s s2 : Loader) (hinv : QInv s)
    (h : BankLoadingThread hdrSize pBankInfo ReadFile s = some s2) : QInv s2 := by
  obtain ⟨i, rest, _, hq, _, _, hri1, _, _, hreq, _, _, _, _, hq2, hsem2⟩ :=
    BankLoadingThread_some hdrSize pBankInfo ReadFile s s2 h
  obtain ⟨fcap, fcount⟩ := BankLoadingThread_frame hdrSize pBankInfo ReadFile s s2 h
  have himem : i ∈ s.queue.items := by
    rw [hq]
    simp
  obtain ⟨hi, hst⟩ := hinv.qMem i himem
  have hnd : (i :: rest).Nodup := hq ▸ hinv.qNodup
  refine { qMem := ?_, qNodup := ?_, qAll := ?_, sem := ?_, cap := ?_, count := ?_ }
  · intro j hj
    rw [hq2] at hj
    have hji : j ≠ i := by
      intro e
      rw [e] at hj
      exact (List.nodup_cons.mp hnd).1 hj
    rw [hreq j hji]
    exact hinv.qMem j (by rw [hq]; exact List.mem_cons_of_mem _ hj)
  · rw [hq2]
    exact (List.nodup_cons.mp hnd).2
  · intro j hj hip
    have hji : j ≠ i := by
      intro e
      rw [e, hri1] at hip
      exact absurd hip (by decide)
    rw [hreq j hji] at hip
    have := hinv.qAll j hj hip
    rw [hq, List.mem_cons] at this
    rw [hq2]
    rcases this with h1 | h1
    · exact absurd h1 hji
    · exact h1
  · rw [hsem2, hq2, hinv.sem, hq]
    simp
  · rw [fcap]
    exact hinv.cap
  · have hcnt := liveCount_point s s2 i hi hreq
    rw [hst, hri1] at hcnt
    simp only [ne_eq] at hcnt
    rw [if_pos (by decide), if_pos (by decide)] at hcnt
    rw [fcount, hinv.count]
    omega

theorem QInv_of_HostReachable (hdrSize : Nat) (pBankInfo : Nat → CAEBankInfo) (s : Loader)
    (hr : HostReachable hdrSize pBankInfo s) : QInv s := by
  induction hr with
  | init s h0 => exact QInv_of_Initial s h0
  | submit s i slot bank sound _ hi hnull ih => exact QInv_Submit s i slot bank sound ih hi hnull
  | service s _ ih => exact QInv_ServiceLoop 50 (le_refl 50) s ih
  | worker s s2 rf _ hstep ih => exact QInv_BankLoadingThread hdrSize pBankInfo rf s s2 ih hstep

theorem HostReachable_of_Reachable (hdrSize : Nat) (pBankInfo : Nat → CAEBankInfo) (s : Loader)
    (hr : Reachable hdrSize pBankInfo s) : HostReachable hdrSize pBankInfo s := by
  induction hr with
  | init s h0 => exact HostReachable.init s h0
  | submit s i slot bank sound _ hi hnull _ _ ih =>
    exact HostReachable.submit s i slot bank sound ih hi hnull
  | service s _ ih => exact HostReachable.service s ih
  | worker s s2 rf _ hstep ih => exact HostReachable.worker s s2 rf ih hstep

theorem ServiceLoop_queue (n : Nat) (hn : n ≤ 50) (s : Loader) (hinv : QInv s) :
    (ServiceLoop n s).queue.items
      = s.queue.items ++ (List.range' (50 - n) n).filter
          (fun i => decide ((s.m_aSoundRequests i).m_iLoadingStatus = REQUEST_STATUS_BEGIN)) := by
  induction n generalizing s with
  | zero => simp [ServiceLoop]
  | succ m ih =>
    unfold ServiceLoop
    have hstep : 50 - (m + 1) + 1 = 50 - m := by omega
    by_cases hz : s.m_nRequestsToLoad ≠ 0
    · rw [if_pos hz]
      obtain ⟨bq, _, breq⟩ := ServiceBody_queue s (50 - (m + 1))
      rw [ih (by omega) _ (QInv_ServiceBody s _ hinv (by omega)), bq, List.range'_succ, hstep,
        List.filter_cons, List.append_assoc]
      congr 1
      have hf : (List.range' (50 - m) m).filter
            (fun i => decide (((ServiceBody s (50 - (m + 1))).m_aSoundRequests i).m_iLoadingStatus
              = REQUEST_STATUS_BEGIN))
          = (List.range' (50 - m) m).filter
            (fun i => decide ((s.m_aSoundRequests i).m_iLoadingStatus = REQUEST_STATUS_BEGIN)) := by
        apply List.filter_congr
        intro j hj
        rw [List.mem_range'_1] at hj
        rw [breq j (by omega)]
      rw [hf]
      by_cases hb : (s.m_aSoundRequests (50 - (m + 1))).m_iLoadingStatus = REQUEST_STATUS_BEGIN
      · rw [if_pos hb]
        simp only [hb, decide_True, if_true, List.singleton_append]
      · rw [if_neg hb]
        simp only [hb, decide_False, List.nil_append]
        rfl
    · rw [if_neg hz]
      have hzero : liveCount s = 0 := by
        rw [← hinv.count]
        omega
      have hnil : (List.range' (50 - (m + 1)) (m + 1)).filter
          (fun i => decide ((s.m_aSoundRequests i).m_iLoadingStatus = REQUEST_STATUS_BEGIN))
          = [] := by
        rw [List.filter_eq_nil_iff]
        intro j hj
        rw [List.mem_range'_1] at hj
        rw [liveCount_zero s hzero j (by omega)]
        decide
      rw [hnil, List.append_nil]

theorem Service_queue (s : Loader) (hinv : QInv s) :
    (Service s).queue.items = s.queue.items ++ submitted s := by
  have := ServiceLoop_queue 50 (le_refl 50) s hinv
  simpa [Service, submitted, List.range_eq_range'] using this

theorem HostReachable_twoOnSlot : HostReachable hdr0 cat2 twoOnSlot :=
  HostReachable.submit _ 1 0 0 1
    (HostReachable.submit loader0 0 0 0 1 (HostReachable.init loader0 Initial_loader0)
      (by decide) rfl)
    (by decide) (by decide)

/-- C7: a request is enqueued exactly once per submission. In every state reachable by host
submissions into idle request records, passes of `Service` and iterations of the loading
thread, the queue holds each in-progress request index below 50 exactly once and no other
index, so it has at most 50 entries, fewer than the capacity 51 it was initialised with.
One pass of `Service` appends exactly the indices of the requests in the submitted status,
each once and in increasing index order, and leaves each of them in progress and once in
the queue. The loading thread, whenever the queue is not empty, takes the first index,
removes it from the queue and marks that request done. -/
theorem C7_queue_exactly_once (hdrSize : Nat) (pBankInfo : Nat → CAEBankInfo) (s : Loader)
    (hr : HostReachable hdrSize pBankInfo s) :
    (∀ i, i ∈ s.queue.items →
      i < 50 ∧ (s.m_aSoundRequests i).m_iLoadingStatus = REQUEST_STATUS_IN_PROGRESS) ∧
    s.queue.items.Nodup ∧
    (∀ i, i < 50 →
      s.queue.items.count i
        = if (s.m_aSoundRequests i).m_iLoadingStatus = REQUEST_STATUS_IN_PROGRESS then 1 else 0) ∧
    s.queue.items.length ≤ 50 ∧
    s.queue.capacity = 51 ∧
    s.queue.items.length < s.queue.capacity ∧
    (Service s).queue.items = s.queue.items ++ submitted s ∧
    (submitted s).Pairwise (fun a b => a < b) ∧
    (∀ i, i < 50 → (i ∈ submitted s ↔
      (s.m_aSoundRequests i).m_iLoadingStatus = REQUEST_STATUS_BEGIN)) ∧
    (∀ i, i < 50 → (s.m_aSoundRequests i).m_iLoadingStatus = REQUEST_STATUS_BEGIN →
      ((Service s).m_aSoundRequests i).m_iLoadingStatus = REQUEST_STATUS_IN_PROGRESS ∧
      (Service s).queue.items.count i = 1 ∧ (submitted s).count i = 1) ∧
    (∀ (ReadFile : ReadOracle) (i : Nat) (rest : List Nat), s.queue.items = i :: rest →
      ∃ s2, BankLoadingThread hdrSize pBankInfo ReadFile s = some s2 ∧
        s2.queue.items = rest ∧
        (s2.m_aSoundRequests i).m_iLoadingStatus = REQUEST_STATUS_DONE ∧
        s2.queue.items.count i = 0) := by
  have hinv := QInv_of_HostReachable hdrSize pBankInfo s hr
  have hinv2 := QInv_of_HostReachable hdrSize pBankInfo (Service s) (HostReachable.service s hr)
  have hlen : s.queue.items.length ≤ 50 :=
    nodup_lt_length _ _ hinv.qNodup (fun x hx => (hinv.qMem x hx).1)
  have hsq := Service_queue s hinv
  have hsub : ∀ i, i < 50 → (i ∈ submitted s ↔
      (s.m_aSoundRequests i).m_iLoadingStatus = REQUEST_STATUS_BEGIN) := by
    intro i hi
    simp [submitted, hi]
  have hsnd : (submitted s).Nodup := by
    unfold submitted
    exact (List.nodup_range 50).filter _
  refine ⟨hinv.qMem, hinv.qNodup, ?_, hlen, hinv.cap, by rw [hinv.cap]; omega, hsq, ?_, hsub,
    ?_, ?_⟩
  · intro i hi
    by_cases hst : (s.m_aSoundRequests i).m_iLoadingStatus = REQUEST_STATUS_IN_PROGRESS
    · rw [if_pos hst]
      exact List.count_eq_one_of_mem hinv.qNodup (hinv.qAll i hi hst)
    · rw [if_neg hst]
      exact List.count_eq_zero_of_not_mem (fun hm => hst (hinv.qMem i hm).2)
  · unfold submitted
    exact List.Pairwise.filter _ (List.pairwise_lt_range 50)
  · intro i hi hb
    have hm : i ∈ (Service s).queue.items := by
      rw [hsq, List.mem_append]
      exact Or.inr ((hsub i hi).mpr hb)
    exact ⟨(hinv2.qMem i hm).2, List.count_eq_one_of_mem hinv2.qNodup hm,
      List.count_eq_one_of_mem hsnd ((hsub i hi).mpr hb)⟩
  · intro rf i rest hq
    have hsem : s.hSemaphore ≠ 0 := by
      rw [hinv.sem, hq]
      simp
    have hsome : ∃ s2, BankLoadingThread hdrSize pBankInfo rf s = some s2 := by
      unfold BankLoadingThread
      rw [if_neg hsem]
      simp [GetFirstInQueue, hq]
    obtain ⟨s2, h2⟩ := hsome
    obtain ⟨i2, rest2, _, hq0, _, _, hri1, _, _, _, _, _, _, _, hq2, _⟩ :=
      BankLoadingThread_some hdrSize pBankInfo rf s s2 h2
    rw [hq] at hq0
    have hi2 : i = i2 := (List.cons.inj hq0).1
    have hr2 : rest = rest2 := (List.cons.inj hq0).2
    subst hi2
    subst hr2
    refine ⟨s2, h2, hq2, hri1, ?_⟩
    rw [hq2]
    have hnd : (i :: rest).Nodup := hq ▸ hinv.qNodup
    exact List.count_eq_zero_of_not_mem (List.nodup_cons.mp hnd).1

/-- C7 applied to the state in which the host has submitted requests 0 and 1, both for
slot 0: one pass of `Service` enqueues 0 and then 1. -/
theorem C7_queue_exactly_once_witness : (Service twoOnSlot).queue.items = [0, 1] :=
  ((C7_queue_exactly_once hdr0 cat2 twoOnSlot HostReachable_twoOnSlot).2.2.2.2.2.2.1).trans
    (by decide)

/-! ## The life of the buffers of a slot -/

theorem FinalizeBody_inv (n k : Nat) (t : Loader) (j : Nat) (hj : j < n)
    (hJ : FinalizeInv n k t) :
    FinalizeInv n k (FinalizeBody t j) ∧
    ((FinalizeBody t j).m_pBankSlots j).m_dwOffsetOnBuffer = 0 ∧
    (∀ x, (t.m_pBankSlots x).m_dwOffsetOnBuffer = 0 →
      ((FinalizeBody t j).m_pBankSlots x).m_dwOffsetOnBuffer = 0) ∧
    (FinalizeBody t j).heap.nAlloc = t.heap.nAlloc := by
  have hsame : ((FinalizeBody t j).m_pBankSlots j).m_dwOffsetOnBuffer = 0 := by
    simp [FinalizeBody]
  have hother : ∀ x, x ≠ j → (FinalizeBody t j).m_pBankSlots x = t.m_pBankSlots x := by
    intro x hx
    simp [FinalizeBody, Function.update_noteq hx]
  have hzero : ∀ x, (t.m_pBankSlots x).m_dwOffsetOnBuffer = 0 →
      ((FinalizeBody t j).m_pBankSlots x).m_dwOffsetOnBuffer = 0 := by
    intro x hx
    by_cases hxj : x = j
    · rw [hxj]
      exact hsame
    · rw [hother x hxj]
      exact hx
  have hheap : (FinalizeBody t j).heap = t.heap.free (t.m_pBankSlots j).m_dwOffsetOnBuffer := rfl
  by_cases hp : (t.m_pBankSlots j).m_dwOffsetOnBuffer = 0
  · have hh : (FinalizeBody t j).heap = t.heap := by
      rw [hheap, hp, Heap.free_zero]
    refine ⟨⟨?_, ?_, ?_⟩, hsame, hzero, by rw [hh]⟩
    · rw [hh]
      exact hJ.heapOK
    · intro x hx hne
      by_cases hxj : x = j
      · rw [hxj] at hne
        exact absurd hsame hne
      · rw [hother x hxj] at hne ⊢
        rw [hh]
        exact hJ.held x hx hne
    · rw [hh]
      by_cases hkj : k = j
      · rw [hkj, hsame, nz_zero]
        have := hJ.own
        rw [hkj, hp, nz_zero] at this
        exact this
      · rw [hother k hkj]
        exact hJ.own
  · obtain ⟨f1, f2, f3, f4, _⟩ := Heap.free_spec t.heap hJ.heapOK j _ (hJ.held j hj hp)
    refine ⟨⟨?_, ?_, ?_⟩, hsame, hzero, by rw [hheap, f4]⟩
    · rw [hheap]
      exact f1
    · intro x hx hne
      by_cases hxj : x = j
      · rw [hxj] at hne
        exact absurd hsame hne
      · rw [hother x hxj] at hne ⊢
        rw [hheap, f3 x hxj]
        exact hJ.held x hx hne
    · rw [hheap]
      by_cases hkj : k = j
      · rw [hkj, hsame, nz_zero]
        exact f2
      · rw [hother k hkj, f3 k hkj]
        exact hJ.own

theorem Finalize_fold (n k : Nat) (l : List Nat) (hl : ∀ j, j ∈ l → j < n) (t : Loader)
    (hJ : FinalizeInv n k t) :
    FinalizeInv n k (l.foldl FinalizeBody t) ∧
    (∀ x, (x ∈ l ∨ (t.m_pBankSlots x).m_dwOffsetOnBuffer = 0) →
      ((l.foldl FinalizeBody t).m_pBankSlots x).m_dwOffsetOnBuffer = 0) ∧
    (l.foldl FinalizeBody t).heap.nAlloc = t.heap.nAlloc := by
  induction l generalizing t with
  | nil =>
    refine ⟨hJ, ?_, rfl⟩
    intro x hx
    rcases hx with hx | hx
    · simp at hx
    · exact hx
  | cons j l ih =>
    rw [List.foldl_cons]
    obtain ⟨b1, b2, b3, b4⟩ := FinalizeBody_inv n k t j (hl j (by simp)) hJ
    obtain ⟨i1, i2, i3⟩ := ih (fun x hx => hl x (List.mem_cons_of_mem _ hx)) (FinalizeBody t j) b1
    refine ⟨i1, ?_, by rw [i3, b4]⟩
    intro x hx
    apply i2
    rcases hx with hx | hx
    · rw [List.mem_cons] at hx
      rcases hx with hx | hx
      · right
        rw [hx]
        exact b2
      · left
        exact hx
    · right
      exact b3 x hx

theorem liveFor_length_le_one (s : Loader) (hinv : Inv s) (k : Nat) (hk : k < s.m_usNumBankSlots) :
    (s.heap.liveFor k).length ≤ 1 := by
  have hnz : ∀ p, (nz p).length ≤ 1 := by
    intro p
    unfold nz
    split_ifs <;> simp
  by_cases hex : ∃ j, j < 50 ∧ InTransit s j ∧ (s.m_aSoundRequests j).m_usBankSlot = k
  · obtain ⟨j, hj, htj, hjk⟩ := hex
    have := hinv.ownReq j hj htj
    rw [hjk] at this
    rw [this]
    exact hnz _
  · rw [hinv.ownSlot k hk (fun j hj htj e => hex ⟨j, hj, htj, e⟩)]
    exact hnz _

/-- C5: in every reachable state and for every slot, at most one buffer allocated for the
slot is live and no buffer has been deleted twice; while a request for the slot is in
progress or done-unpublished the live buffer is the one the request holds, and none is
live between the delete and the new of `AllocateBankSlot`; and when no request for the slot
is in progress or done-unpublished and `N >= 1` loads have been published into the slot,
exactly `N` buffers have been allocated for it and `N - 1` of them deleted, the live one
is the buffer the slot holds, and `Finalize` deletes that one: afterwards no buffer of
the slot is live, `N` have been deleted, and still nothing was deleted twice. -/
theorem C5_slot_buffer_lifecycle (hdrSize : Nat) (pBankInfo : Nat → CAEBankInfo) (s : Loader)
    (hr : Reachable hdrSize pBankInfo s) (k : Nat) (hk : k < s.m_usNumBankSlots) :
    (s.heap.liveFor k).length ≤ 1 ∧
    s.heap.nBadFree = 0 ∧
    (∀ i, i < 50 → InTransit s i → (s.m_aSoundRequests i).m_usBankSlot = k →
      s.heap.liveFor k = nz (s.m_aSoundRequests i).m_pBuffer ∧
      (heapAfterDelete s.heap (s.m_aSoundRequests i)).liveFor k = []) ∧
    ((∀ i, i < 50 → InTransit s i → (s.m_aSoundRequests i).m_usBankSlot ≠ k) →
      1 ≤ s.nPublished k →
      s.heap.nAlloc k = s.nPublished k ∧
      s.heap.nFree k = s.nPublished k - 1 ∧
      (s.m_pBankSlots k).m_dwOffsetOnBuffer ≠ 0 ∧
      s.heap.liveFor k = [(s.m_pBankSlots k).m_dwOffsetOnBuffer] ∧
      (Finalize s).heap.liveFor k = [] ∧
      (Finalize s).heap.nAlloc k = s.nPublished k ∧
      (Finalize s).heap.nFree k = s.nPublished k ∧
      (Finalize s).heap.nBadFree = 0) := by
  have hinv := Inv_of_Reachable hdrSize pBankInfo s hr
  refine ⟨liveFor_length_le_one s hinv k hk, hinv.heapOK.noBad, ?_, ?_⟩
  · intro i hi ht hik
    have ho := hinv.ownReq i hi ht
    rw [hik] at ho
    exact ⟨ho, (heapAfterDelete_spec s.heap (s.m_aSoundRequests i) k hinv.heapOK ho).2.1⟩
  intro hq hN
  have hown := hinv.ownSlot k hk hq
  have hcnt := hinv.cntSlot k hk (fun i hi hd => hq i hi (Or.inr hd))
  have hne := hinv.liveOne k hk (by omega)
  have hp : (s.m_pBankSlots k).m_dwOffsetOnBuffer ≠ 0 := by
    intro e
    rw [hown, e, nz_zero] at hne
    exact hne rfl
  rw [nz_pos hp] at hown
  have hc := hinv.heapOK.count k
  rw [hown] at hc
  simp only [List.length_singleton] at hc
  have hJ : FinalizeInv s.m_usNumBankSlots k s := by
    refine ⟨hinv.heapOK, ?_, by rw [hown, nz_pos hp]⟩
    intro j hj hpj
    have hnoj : ∀ i, i < 50 → InTransit s i → (s.m_aSoundRequests i).m_usBankSlot ≠ j := by
      intro i hi ht e
      have := (hinv.notReady i hi ht).1
      rw [e] at this
      exact hpj this
    rw [hinv.ownSlot j hj hnoj, nz_pos hpj]
  obtain ⟨g1, g2, g3⟩ := Finalize_fold s.m_usNumBankSlots k (List.range s.m_usNumBankSlots)
    (fun j hj => List.mem_range.mp hj) s hJ
  have hz : ((Finalize s).m_pBankSlots k).m_dwOffsetOnBuffer = 0 :=
    g2 k (Or.inl (List.mem_range.mpr hk))
  have hl : (Finalize s).heap.liveFor k = [] := by
    have := g1.own
    unfold Finalize
    rw [this]
    unfold Finalize at hz
    rw [hz, nz_zero]
  have hc2 := g1.heapOK.count k
  have ha : (Finalize s).heap.nAlloc k = s.heap.nAlloc k := by
    unfold Finalize
    rw [g3]
  unfold Finalize at hl
  rw [hl] at hc2
  simp only [List.length_nil, Nat.add_zero] at hc2
  refine ⟨hcnt, by omega, hp, hown, hl, by rw [ha, hcnt], ?_, g1.heapOK.noBad⟩
  unfold Finalize
  rw [← hc2, g3, hcnt]

theorem Reachable_requeued (rf : ReadOracle) (sound : Nat)
    (h : (BankLoadingThread hdr0 cat2 rf (queued sound)).isSome = true)
    (h0 : ((published rf sound).m_aSoundRequests 0).m_iLoadingStatus = REQUEST_STATUS_NULL)
    (hn : 0 < (published rf sound).m_usNumBankSlots)
    (hfresh : ∀ j, j < 50 →
      ((published rf sound).m_aSoundRequests j).m_iLoadingStatus ≠ REQUEST_STATUS_NULL →
      ((published rf sound).m_aSoundRequests j).m_usBankSlot ≠ 0) :
    Reachable hdr0 cat2 (requeued rf sound) :=
  Reachable.service _
    (Reachable.submit (published rf sound) 0 0 0 sound (Reachable_published rf sound h)
      (by decide) h0 hn hfresh)

theorem Reachable_republished (rf : ReadOracle) (sound : Nat)
    (h : (BankLoadingThread hdr0 cat2 rf (queued sound)).isSome = true)
    (h0 : ((published rf sound).m_aSoundRequests 0).m_iLoadingStatus = REQUEST_STATUS_NULL)
    (hn : 0 < (published rf sound).m_usNumBankSlots)
    (hfresh : ∀ j, j < 50 →
      ((published rf sound).m_aSoundRequests j).m_iLoadingStatus ≠ REQUEST_STATUS_NULL →
      ((published rf sound).m_aSoundRequests j).m_usBankSlot ≠ 0)
    (h2 : (BankLoadingThread hdr0 cat2 rf (requeued rf sound)).isSome = true) :
    Reachable hdr0 cat2 (republished rf sound) :=
  Reachable.service _
    (Reachable.worker (requeued rf sound) _ rf (Reachable_requeued rf sound h h0 hn hfresh)
      (eq_some_getD _ _ h2))

/-- C5 applied to the state after two complete load cycles of slot 0: two buffers were
allocated for the slot, one was deleted, and `Finalize` deletes the other. -/
theorem C5_slot_buffer_lifecycle_witness :
    (republished readOk 1).nPublished 0 = 2 ∧
    (republished readOk 1).heap.nAlloc 0 = (republished readOk 1).nPublished 0 ∧
    (republished readOk 1).heap.nFree 0 = (republished readOk 1).nPublished 0 - 1 ∧
    (Finalize (republished readOk 1)).heap.nFree 0 = (republished readOk 1).nPublished 0 :=
  let h := (C5_slot_buffer_lifecycle hdr0 cat2 (republished readOk 1)
    (Reachable_republished readOk 1 (by decide) (by decide) (by decide) (by decide) (by decide))
    0 (by decide)).2.2.2 (by decide!) (by decide!)
  ⟨by decide!, h.1, h.2.1, h.2.2.2.2.2.2.1⟩

/-- C8: `Finalize` deletes the buffers held by the slots only. In the reachable state where
request 0 is done and not yet published, the request holds buffer 1, and in the reachable
state where request 0 is in progress for a second load it holds the old buffer 1 of slot 0;
in both, buffer 1 is still live after `Finalize` and nothing was deleted. -/
theorem C8_Finalize_leaves_request_buffers :
    (Reachable hdr0 cat2 (loaded readOk 1) ∧
      ((loaded readOk 1).m_aSoundRequests 0).m_iLoadingStatus = REQUEST_STATUS_DONE ∧
      ((loaded readOk 1).m_aSoundRequests 0).m_pBuffer = 1 ∧
      (loaded readOk 1).heap.live.map Buffer.addr = [1] ∧
      (Finalize (loaded readOk 1)).heap.live.map Buffer.addr = [1] ∧
      (Finalize (loaded readOk 1)).heap.nFree 0 = 0) ∧
    (Reachable hdr0 cat2 (requeued readOk 1) ∧
      ((requeued readOk 1).m_aSoundRequests 0).m_iLoadingStatus = REQUEST_STATUS_IN_PROGRESS ∧
      ((requeued readOk 1).m_aSoundRequests 0).m_pBuffer = 1 ∧
      (requeued readOk 1).heap.live.map Buffer.addr = [1] ∧
      (Finalize (requeued readOk 1)).heap.live.map Buffer.addr = [1] ∧
      (Finalize (requeued readOk 1)).heap.nFree 0 = 0) :=
  ⟨⟨Reachable_loaded readOk 1 (by decide), by decide, by decide, by decide, by decide, by decide⟩,
   ⟨Reachable_requeued readOk 1 (by decide) (by decide) (by decide) (by decide), by decide,
    by decide,
    by decide, by decide, by decide⟩⟩

/-! ## Publication of a single-sound load -/

/-- C3, as stated, fails: request 0 is done and carries sound 1 of a bank with 2 sounds;
after `Service` publishes it the buffer size of slot 0 is 150, entry 1 of the slot's table
is 0, but entry `(1 + 1) mod 2 = 0` is 0 and not 150 (the size is stored in entry 2). -/
theorem C3_counterexample :
    Reachable hdr0 cat2 (loaded readOk 1) ∧
    ((loaded readOk 1).m_aSoundRequests 0).m_iLoadingStatus = REQUEST_STATUS_DONE ∧
    ((loaded readOk 1).m_aSoundRequests 0).m_usSound = 1 ∧
    ((loaded readOk 1).m_aSoundRequests 0).m_usBankSlot = 0 ∧
    (cat2 ((loaded readOk 1).m_aSoundRequests 0).m_usBank).m_OriginalHeader.GetNumSounds = 2 ∧
    ((published readOk 1).m_pBankSlots 0).m_dwSlotBufferSize = 150 ∧
    ((published readOk 1).m_pBankSlots 0).m_aBankItems 1 = 0 ∧
    ((published readOk 1).m_pBankSlots 0).m_aBankItems 2 = 150 ∧
    ((published readOk 1).m_pBankSlots 0).m_aBankItems ((1 + 1) % 2)
      ≠ ((published readOk 1).m_pBankSlots 0).m_dwSlotBufferSize :=
  ⟨Reachable_loaded readOk 1 (by decide), by decide, by decide, by decide, by decide, by decide,
   by decide, by decide, by decide⟩

/-- C3, amended: when `Service` publishes a done request that carries a single-sound index
`s < 400`, the slot's offset table has `offset(s) = 0` and
`offset((s+1) mod 400) = loadedSize`, the slot's buffer size, whatever the bank's table
is; the other entries are those of the bank's table. -/
theorem C3_single_sound_table (s : Loader) (i : Nat)
    (hst : (s.m_aSoundRequests i).m_iLoadingStatus = REQUEST_STATUS_DONE)
    (hs : (s.m_aSoundRequests i).m_usSound < 400) :
    ((ServiceBody s i).m_pBankSlots (s.m_aSoundRequests i).m_usBankSlot).m_aBankItems
        (s.m_aSoundRequests i).m_usSound = 0 ∧
    ((ServiceBody s i).m_pBankSlots (s.m_aSoundRequests i).m_usBankSlot).m_aBankItems
        (((s.m_aSoundRequests i).m_usSound + 1) % 400)
      = ((ServiceBody s i).m_pBankSlots (s.m_aSoundRequests i).m_usBankSlot).m_dwSlotBufferSize ∧
    ((ServiceBody s i).m_pBankSlots (s.m_aSoundRequests i).m_usBankSlot).m_dwSlotBufferSize
      = (s.m_pBankSlots (s.m_aSoundRequests i).m_usBankSlot).m_dwSlotBufferSize ∧
    (∀ t, (s.m_aSoundRequests i).m_pBufferData = some t →
      ∀ k, k < 400 → k ≠ (s.m_aSoundRequests i).m_usSound →
        k ≠ ((s.m_aSoundRequests i).m_usSound + 1) % 400 →
        ((ServiceBody s i).m_pBankSlots (s.m_aSoundRequests i).m_usBankSlot).m_aBankItems k = t k) := by
  have hne : (s.m_aSoundRequests i).m_usSound ≠ 65535 := by omega
  have hd : (s.m_aSoundRequests i).m_usSound ≠ ((s.m_aSoundRequests i).m_usSound + 1) % 400 := by
    omega
  refine ⟨?_, ?_, ?_, ?_⟩
  · simp [ServiceBody, hst, hne, Function.update_noteq hd]
  · simp [ServiceBody, hst, hne]
  · simp [ServiceBody, hst]
  · intro t ht k hk hk1 hk2
    simp [ServiceBody, hst, hne, ht, Function.update_noteq hk1, Function.update_noteq hk2, hk]

/-- C3 amended, applied to the done request for sound 1 of the two-sound bank: publishing
it stores 0 in entry 1 and the buffer size in entry 2. -/
theorem C3_single_sound_table_witness :
    ((ServiceBody (loaded readOk 1) 0).m_pBankSlots ((loaded readOk 1).m_aSoundRequests 0).m_usBankSlot).m_aBankItems
        (((loaded readOk 1).m_aSoundRequests 0).m_usSound) = 0 :=
  (C3_single_sound_table (loaded readOk 1) 0 (by decide) (by decide)).1

/-! ## Failed reads -/

/-- C4, as stated, fails: with a read oracle under which every `ReadFile` call fails, the
read issued for request 0 is recorded as failed, yet the loading thread sets the request
to done, and the next pass of `Service` publishes buffer 1, bank 0 and sound 1 into
slot 0. -/
theorem C4_counterexample :
    Reachable hdr0 cat2 (published readFail 1) ∧
    (loaded readFail 1).reads = [{ file := 3, offset := 5904, length := 150, ok := false }] ∧
    ((loaded readFail 1).m_aSoundRequests 0).m_iLoadingStatus = REQUEST_STATUS_DONE ∧
    ((published readFail 1).m_pBankSlots 0).m_dwOffsetOnBuffer = 1 ∧
    ((published readFail 1).m_pBankSlots 0).m_usBankNum = 0 ∧
    (published readFail 1).m_aBankSlotSound 0 = 1 :=
  ⟨Reachable_published readFail 1 (by decide), by decide, by decide, by decide, by decide,
   by decide⟩

/-- C4, amended: when the loading thread is woken with request `i` first in the queue, its
cycle ends with request `i` in status done whatever the outcome of the read, and
`Service` then publishes the request's buffer and bank into the slot and returns the
request to idle; a different outcome of the read changes nothing but the recorded trace
of reads. -/
theorem C4_worker_marks_done (hdrSize : Nat) (pBankInfo : Nat → CAEBankInfo)
    (ReadFile : ReadOracle) (s : Loader) (i : Nat) (rest : List Nat)
    (hsem : s.hSemaphore ≠ 0) (hq : s.queue.items = i :: rest) :
    ∃ s2, BankLoadingThread hdrSize pBankInfo ReadFile s = some s2 ∧
      (s2.m_aSoundRequests i).m_iLoadingStatus = REQUEST_STATUS_DONE ∧
      ((ServiceBody s2 i).m_pBankSlots (s2.m_aSoundRequests i).m_usBankSlot).m_dwOffsetOnBuffer
        = (s2.m_aSoundRequests i).m_pBuffer ∧
      ((ServiceBody s2 i).m_pBankSlots (s2.m_aSoundRequests i).m_usBankSlot).m_usBankNum
        = (s2.m_aSoundRequests i).m_usBank ∧
      ((ServiceBody s2 i).m_aSoundRequests i).m_iLoadingStatus = REQUEST_STATUS_NULL ∧
      ∀ ReadFile2 : ReadOracle, ∃ s3,
        BankLoadingThread hdrSize pBankInfo ReadFile2 s = some s3 ∧
        s3.m_aSoundRequests = s2.m_aSoundRequests ∧ s3.m_pBankSlots = s2.m_pBankSlots ∧
        s3.m_aBankSlotSound = s2.m_aBankSlotSound ∧ s3.heap = s2.heap ∧ s3.queue = s2.queue ∧
        s3.hSemaphore = s2.hSemaphore ∧ s3.m_nRequestsToLoad = s2.m_nRequestsToLoad := by
  have hstep : ∀ rf : ReadOracle, ∃ s2, BankLoadingThread hdrSize pBankInfo rf s = some s2 := by
    intro rf
    unfold BankLoadingThread
    rw [if_neg hsem]
    simp [GetFirstInQueue, hq]
  obtain ⟨s2, h2⟩ := hstep ReadFile
  have hdone : ∀ (rf : ReadOracle) (t : Loader),
      BankLoadingThread hdrSize pBankInfo rf s = some t →
      (t.m_aSoundRequests i).m_iLoadingStatus = REQUEST_STATUS_DONE := by
    intro rf t ht
    unfold BankLoadingThread at ht
    rw [if_neg hsem] at ht
    simp only [GetFirstInQueue, hq, List.head?_cons, Option.some.injEq] at ht
    subst ht
    simp
  have hst := hdone ReadFile s2 h2
  refine ⟨s2, h2, hst, by simp [ServiceBody, hst], by simp [ServiceBody, hst],
    by simp [ServiceBody, hst], ?_⟩
  intro rf2
  obtain ⟨s3, h3⟩ := hstep rf2
  refine ⟨s3, h3, ?_⟩
  unfold BankLoadingThread at h2 h3
  rw [if_neg hsem] at h2 h3
  simp only [GetFirstInQueue, hq, List.head?_cons, Option.some.injEq] at h2 h3
  subst h2
  subst h3
  simp [LoadRequest]

/-- C4 amended, applied to the queued request for sound 1 with every read failing: the
loading thread still produces a state. -/
theorem C4_worker_marks_done_witness :
    ∃ s2, BankLoadingThread hdr0 cat2 readFail (queued 1) = some s2 ∧
      (s2.m_aSoundRequests 0).m_iLoadingStatus = REQUEST_STATUS_DONE :=
  let ⟨s2, h1, h2, _⟩ := C4_worker_marks_done hdr0 cat2 readFail (queued 1) 0 []
    (by decide) (by decide)
  ⟨s2, h1, h2⟩

end DynSfx
